import Mathlib

/-!
Verification of the pandaparty RPC transport and actor core.

Shallow embedding of `infra/network/rpc.go` (length-prefixed frame codec,
server dispatch loop, client call path with connection pooling and
round-robin service selection) and `infra/actor/actor.go` (mailbox actor
with Tell/Ask/Stop), together with proofs of the spec's testable
properties.

Conventions:
* A Go `[]byte`, and a Go `string` (which is an immutable byte sequence),
  is modelled as `List Nat` with each element a byte value below 256.
* Go `int32` values read from / written to the wire are modelled as `Int`
  with explicit two's-complement wrapping (`% 2^32`).
* Fallible Go code is modelled with explicit result inductives; a Go
  runtime panic (e.g. `make([]byte, n)` with negative `n`) is a dedicated
  result constructor, distinct from an error return.
-/

namespace PandaParty

/-- A Go byte sequence (`[]byte`, or a `string` viewed as raw bytes). -/
abbrev Bytes := List Nat

/-! ## 32-bit big-endian integers on the wire

`binary.Write(w, binary.BigEndian, int32(n))` writes the four bytes of the
two's complement representation of `n` truncated to 32 bits;
`binary.Read(r, binary.BigEndian, &x)` for `x int32` reads four bytes and
interprets them as a signed 32-bit value. -/

/-- The four big-endian bytes written for `int32(n)` where `n` is a Go
length (`len(...)`, a non-negative machine integer): the bytes of
`n mod 2^32`. -/
def be32 (n : Nat) : Bytes :=
  [n % 4294967296 / 16777216, n % 4294967296 / 65536 % 256,
   n % 4294967296 / 256 % 256, n % 4294967296 % 256]

/-- Unsigned value of four big-endian bytes. -/
def beVal (b0 b1 b2 b3 : Nat) : Nat :=
  b0 * 16777216 + b1 * 65536 + b2 * 256 + b3

/-- Signed (two's complement) reading of an unsigned 32-bit value, the
value a Go `int32` variable holds after `binary.Read`. -/
def i32 (u : Nat) : Int :=
  if u % 4294967296 < 2147483648 then ((u % 4294967296 : Nat) : Int)
  else ((u % 4294967296 : Nat) : Int) - 4294967296

/-- Read one big-endian `int32` from the front of a byte stream
(`binary.Read(r, binary.BigEndian, &x)`); `none` models the read failing
with `io.EOF`/`io.ErrUnexpectedEOF` because fewer than four bytes remain. -/
def readInt32 : Bytes → Option (Int × Bytes)
  | b0 :: b1 :: b2 :: b3 :: rest => some (i32 (beVal b0 b1 b2 b3), rest)
  | _ => none

/-! ## Frame codec

Request frame (rpc.go lines 112–118 and 424–453):
`TotalFrameLength (int32) | MethodNameLength (int32) | MethodName | PayloadLength (int32) | Payload`.
Response frame (rpc.go lines 191–231 and 457–501):
`TotalFrameLength (int32) | ErrorLength (int32) | ErrorString | PayloadLength (int32) | Payload`.
-/

/-- Body of a request frame, as built by `RPCClient.Call` into
`requestFrameBuffer` (rpc.go lines 424–441). -/
def encodeRequestBody (method payload : Bytes) : Bytes :=
  be32 method.length ++ method ++ be32 payload.length ++ payload

/-- Full encoded request as sent on the wire: `int32(requestFrameBuffer.Len())`
followed by the buffer (rpc.go lines 443–453). -/
def EncodeRequest (method payload : Bytes) : Bytes :=
  be32 (encodeRequestBody method payload).length ++ encodeRequestBody method payload

/-- Body of a response frame, as built by `RPCServer.handleConnection` into
`responseBuffer` (rpc.go lines 198–221). -/
def encodeResponseBody (errStr payload : Bytes) : Bytes :=
  be32 errStr.length ++ errStr ++ be32 payload.length ++ payload

/-- Full encoded response as sent on the wire: `int32(responseBuffer.Len())`
followed by the buffer (rpc.go lines 223–233). -/
def EncodeResponse (errStr payload : Bytes) : Bytes :=
  be32 (encodeResponseBody errStr payload).length ++ encodeResponseBody errStr payload

/-- Result of the decoding side of the protocol.  `connErr` models the
reading goroutine returning (terminating only its own connection) after a
read/validation failure; `panicked` models a Go runtime panic (which is
process-fatal, as no `recover` exists on these paths). -/
inductive DecodeResult (α : Type) where
  | ok : α → DecodeResult α
  | connErr : DecodeResult α
  | panicked : DecodeResult α
deriving DecidableEq, Repr

/-- Parse the body of a request frame (`frameData`), following
`RPCServer.handleConnection` (rpc.go lines 140–169):
read `methodNameLen`, then `make([]byte, methodNameLen)` — which panics at
runtime if the value is negative — then `io.ReadFull`, then the same for
the payload.  `io.ReadFull` on the in-memory reader fails (and the
coordinator returns, closing the connection) when fewer bytes remain than
requested. -/
def decodeRequestBody (frame : Bytes) : DecodeResult (Bytes × Bytes) :=
  match readInt32 frame with
  | none => .connErr
  | some (methodNameLen, rest) =>
    if methodNameLen < 0 then .panicked
    else if rest.length < methodNameLen.toNat then .connErr
    else
      match readInt32 (rest.drop methodNameLen.toNat) with
      | none => .connErr
      | some (payloadLen, rest2) =>
        if payloadLen < 0 then .panicked
        else if rest2.length < payloadLen.toNat then .connErr
        else .ok (rest.take methodNameLen.toNat, rest2.take payloadLen.toNat)

/-- Decode one request frame from the front of a connection's byte stream
(rpc.go lines 120–169): read `totalFrameLen`, reject values `≤ 0`
("Invalid total frame length"), read exactly that many bytes as
`frameData`, then parse the body. -/
def DecodeRequest (stream : Bytes) : DecodeResult (Bytes × Bytes) :=
  match readInt32 stream with
  | none => .connErr
  | some (totalFrameLen, rest) =>
    if totalFrameLen ≤ 0 then .connErr
    else if rest.length < totalFrameLen.toNat then .connErr
    else decodeRequestBody (rest.take totalFrameLen.toNat)

/-- Parse the body of a response frame (`resFrameData`), following
`RPCClient.Call` (rpc.go lines 476–501); structurally the same reads as
the request body, with the error string in place of the method name, and
the same `make([]byte, n)` panic on a negative length field. -/
def decodeResponseBody (frame : Bytes) : DecodeResult (Bytes × Bytes) :=
  match readInt32 frame with
  | none => .connErr
  | some (errLen, rest) =>
    if errLen < 0 then .panicked
    else if rest.length < errLen.toNat then .connErr
    else
      match readInt32 (rest.drop errLen.toNat) with
      | none => .connErr
      | some (payloadLen, rest2) =>
        if payloadLen < 0 then .panicked
        else if rest2.length < payloadLen.toNat then .connErr
        else .ok (rest.take errLen.toNat, rest2.take payloadLen.toNat)

/-- Decode one response frame from the front of the connection's byte
stream (rpc.go lines 457–501): read `resTotalFrameLen`, reject values
`≤ 0`, read exactly that many bytes as `resFrameData`, then parse. -/
def DecodeResponse (stream : Bytes) : DecodeResult (Bytes × Bytes) :=
  match readInt32 stream with
  | none => .connErr
  | some (totalFrameLen, rest) =>
    if totalFrameLen ≤ 0 then .connErr
    else if rest.length < totalFrameLen.toNat then .connErr
    else decodeResponseBody (rest.take totalFrameLen.toNat)

/-! ### Codec lemmas -/

theorem beVal_be32 (n : Nat) :
    beVal (n % 4294967296 / 16777216) (n % 4294967296 / 65536 % 256)
      (n % 4294967296 / 256 % 256) (n % 4294967296 % 256) = n % 4294967296 := by
  unfold beVal
  omega

theorem i32_mod (n : Nat) : i32 (n % 4294967296) = i32 n := by
  unfold i32
  rw [Nat.mod_mod_of_dvd n dvd_rfl]

theorem readInt32_be32 (n : Nat) (rest : Bytes) :
    readInt32 (be32 n ++ rest) = some (i32 n, rest) := by
  simp only [be32, List.cons_append, List.nil_append, readInt32, beVal_be32, i32_mod]

theorem i32_of_small (n : Nat) (h : n < 2147483648) : i32 n = n := by
  unfold i32
  rw [Nat.mod_eq_of_lt (by omega)]
  simp [h]

theorem i32_neg_of_high (n : Nat) (h1 : 2147483648 ≤ n) (h2 : n < 4294967296) :
    i32 n = (n : Int) - 4294967296 := by
  unfold i32
  rw [Nat.mod_eq_of_lt h2]
  have hn : ¬ (n < 2147483648) := by omega
  simp [hn]

theorem be32_length (n : Nat) : (be32 n).length = 4 := rfl

theorem encodeRequestBody_length (m p : Bytes) :
    (encodeRequestBody m p).length = 8 + m.length + p.length := by
  simp [encodeRequestBody, be32]
  omega

theorem encodeResponseBody_length (e p : Bytes) :
    (encodeResponseBody e p).length = 8 + e.length + p.length := by
  simp [encodeResponseBody, be32]
  omega

theorem decodeRequestBody_encode (m p : Bytes)
    (hm : m.length < 2147483648) (hp : p.length < 2147483648) :
    decodeRequestBody (encodeRequestBody m p) = DecodeResult.ok (m, p) := by
  have hshape : encodeRequestBody m p = be32 m.length ++ (m ++ (be32 p.length ++ p)) := by
    simp [encodeRequestBody, List.append_assoc]
  rw [hshape]
  unfold decodeRequestBody
  rw [readInt32_be32, i32_of_small m.length hm]
  dsimp only
  rw [if_neg (by omega : ¬ ((m.length : Int) < 0)), Int.toNat_natCast]
  rw [if_neg (by simp only [List.length_append, be32_length]; omega)]
  rw [List.drop_left, readInt32_be32, i32_of_small p.length hp]
  dsimp only
  rw [if_neg (by omega : ¬ ((p.length : Int) < 0)), Int.toNat_natCast]
  rw [if_neg (by omega : ¬ (p.length < p.length))]
  rw [List.take_left]
  simp

theorem decodeResponseBody_encode (e p : Bytes)
    (he : e.length < 2147483648) (hp : p.length < 2147483648) :
    decodeResponseBody (encodeResponseBody e p) = DecodeResult.ok (e, p) := by
  have hshape : encodeResponseBody e p = be32 e.length ++ (e ++ (be32 p.length ++ p)) := by
    simp [encodeResponseBody, List.append_assoc]
  rw [hshape]
  unfold decodeResponseBody
  rw [readInt32_be32, i32_of_small e.length he]
  dsimp only
  rw [if_neg (by omega : ¬ ((e.length : Int) < 0)), Int.toNat_natCast]
  rw [if_neg (by simp only [List.length_append, be32_length]; omega)]
  rw [List.drop_left, readInt32_be32, i32_of_small p.length hp]
  dsimp only
  rw [if_neg (by omega : ¬ ((p.length : Int) < 0)), Int.toNat_natCast]
  rw [if_neg (by omega : ¬ (p.length < p.length))]
  rw [List.take_left]
  simp

theorem DecodeRequest_EncodeRequest (m p : Bytes)
    (h : 8 + m.length + p.length ≤ 2147483647) :
    DecodeRequest (EncodeRequest m p) = DecodeResult.ok (m, p) := by
  have hB : (encodeRequestBody m p).length < 2147483648 := by
    rw [encodeRequestBody_length]; omega
  unfold EncodeRequest DecodeRequest
  rw [readInt32_be32, i32_of_small _ hB]
  dsimp only
  rw [if_neg (by rw [encodeRequestBody_length]; omega :
        ¬ (((encodeRequestBody m p).length : Int) ≤ 0))]
  rw [Int.toNat_natCast, if_neg (by omega), List.take_length]
  exact decodeRequestBody_encode m p (by omega) (by omega)

theorem DecodeResponse_EncodeResponse (e p : Bytes)
    (h : 8 + e.length + p.length ≤ 2147483647) :
    DecodeResponse (EncodeResponse e p) = DecodeResult.ok (e, p) := by
  have hB : (encodeResponseBody e p).length < 2147483648 := by
    rw [encodeResponseBody_length]; omega
  unfold EncodeResponse DecodeResponse
  rw [readInt32_be32, i32_of_small _ hB]
  dsimp only
  rw [if_neg (by rw [encodeResponseBody_length]; omega :
        ¬ (((encodeResponseBody e p).length : Int) ≤ 0))]
  rw [Int.toNat_natCast, if_neg (by omega), List.take_length]
  exact decodeResponseBody_encode e p (by omega) (by omega)

/-! ## Go string literals used in messages

Go strings are byte sequences; the constants below are the ASCII bytes of
the string literals appearing in `rpc.go`, split at the points where
`fmt.Sprintf`/`fmt.Errorf` interpolate arguments. -/

/-- ASCII bytes of `"no coordinator found for method: "` (rpc.go line 179). -/
def noCoordPrefix : Bytes := [110, 111, 32, 99, 111, 111, 114, 100, 105, 110, 97, 116, 111, 114, 32, 102, 111, 117, 110, 100, 32, 102, 111, 114, 32, 109, 101, 116, 104, 111, 100, 58, 32]

/-- ASCII bytes of `"RPCClient: "`. -/
def rpccPrefix : Bytes := [82, 80, 67, 67, 108, 105, 101, 110, 116, 58, 32]

/-- ASCII bytes of `"failed to send request"`. -/
def sendPhaseMark : Bytes := [102, 97, 105, 108, 101, 100, 32, 116, 111, 32, 115, 101, 110, 100, 32, 114, 101, 113, 117, 101, 115, 116]

/-- ASCII bytes of `" total frame length for method "`. -/
def lenForMethodSep : Bytes := [32, 116, 111, 116, 97, 108, 32, 102, 114, 97, 109, 101, 32, 108, 101, 110, 103, 116, 104, 32, 102, 111, 114, 32, 109, 101, 116, 104, 111, 100, 32]

/-- ASCII bytes of `" frame for method "`. -/
def frameForMethodSep : Bytes := [32, 102, 114, 97, 109, 101, 32, 102, 111, 114, 32, 109, 101, 116, 104, 111, 100, 32]

/-- ASCII bytes of `"failed to read "`. -/
def readFailMark : Bytes := [102, 97, 105, 108, 101, 100, 32, 116, 111, 32, 114, 101, 97, 100, 32]

/-- ASCII bytes of `"response"`. -/
def respMark : Bytes := [114, 101, 115, 112, 111, 110, 115, 101]

/-- ASCII bytes of `" total frame length from "`. -/
def lenFromSep : Bytes := [32, 116, 111, 116, 97, 108, 32, 102, 114, 97, 109, 101, 32, 108, 101, 110, 103, 116, 104, 32, 102, 114, 111, 109, 32]

/-- ASCII bytes of `" frame data from "`. -/
def frameDataFromSep : Bytes := [32, 102, 114, 97, 109, 101, 32, 100, 97, 116, 97, 32, 102, 114, 111, 109, 32]

/-- ASCII bytes of `"connection closed by server "`. -/
def connClosedByMark : Bytes := [99, 111, 110, 110, 101, 99, 116, 105, 111, 110, 32, 99, 108, 111, 115, 101, 100, 32, 98, 121, 32, 115, 101, 114, 118, 101, 114, 32]

/-- ASCII bytes of `" while reading "`. -/
def whileReadingSep : Bytes := [32, 119, 104, 105, 108, 101, 32, 114, 101, 97, 100, 105, 110, 103, 32]

/-- ASCII bytes of `" to "`. -/
def toSep : Bytes := [32, 116, 111, 32]

/-- ASCII bytes of `": "`. -/
def colonSep : Bytes := [58, 32]

/-- ASCII bytes of `" for method "`. -/
def forMethodSep : Bytes := [32, 102, 111, 114, 32, 109, 101, 116, 104, 111, 100, 32]

/-- ASCII bytes of `"invalid "`. -/
def invalidMark : Bytes := [105, 110, 118, 97, 108, 105, 100, 32]

/-- ASCII bytes of `" total frame length "`. -/
def lenSpaceSep : Bytes := [32, 116, 111, 116, 97, 108, 32, 102, 114, 97, 109, 101, 32, 108, 101, 110, 103, 116, 104, 32]

/-- ASCII bytes of `" received from "`. -/
def recvdFromSep : Bytes := [32, 114, 101, 99, 101, 105, 118, 101, 100, 32, 102, 114, 111, 109, 32]

/-- ASCII bytes of `"RPC call to method '"`. -/
def appErrA : Bytes := [82, 80, 67, 32, 99, 97, 108, 108, 32, 116, 111, 32, 109, 101, 116, 104, 111, 100, 32, 39]

/-- ASCII bytes of `"' on service '"`. -/
def appErrB : Bytes := [39, 32, 111, 110, 32, 115, 101, 114, 118, 105, 99, 101, 32, 39]

/-- ASCII bytes of `"' at '"`. -/
def appErrC : Bytes := [39, 32, 97, 116, 32, 39]

/-- ASCII bytes of `"' failed: "`. -/
def appErrD : Bytes := [39, 32, 102, 97, 105, 108, 101, 100, 58, 32]

/-- Decimal rendering of an integer (what `%d` produces), used only by the
invalid-response-length message. -/
def intDecimal (i : Int) : Bytes :=
  if i < 0 then 45 :: (Nat.toDigits 10 i.natAbs).map Char.toNat
  else (Nat.toDigits 10 i.toNat).map Char.toNat

/-- `needle` occurs contiguously inside `hay`. -/
def hasSegment (needle hay : Bytes) : Prop := ∃ pre post, hay = pre ++ (needle ++ post)

/-! ## RPCServer dispatch and per-connection loop -/

/-- A registered coordinator function: request payload in, response payload
and optional application error (the error's `Error()` string) out. -/
abbrev Handler := Bytes → Bytes × Option Bytes

/-- The server's `handlers` map (`map[string]func(...)`), modelled as an
association list keyed by the method-name bytes. -/
abbrev HandlerTable := List (Bytes × Handler)

/-- Go map lookup `s.handlers[methodName]`. -/
def lookupHandler (t : HandlerTable) (m : Bytes) : Option Handler :=
  match t with
  | [] => none
  | (k, h) :: rest => if k = m then some h else lookupHandler rest m

/-- The `RPCResponse` the server builds (rpc.go lines 30–35): `Error` is
the empty string on success. -/
structure RPCResponse where
  error : Bytes
  payload : Bytes
deriving DecidableEq, Repr

/-- Dispatch on a decoded request (rpc.go lines 173–189): no registered
handler means no invocation at all — the response error string is
`"no coordinator found for method: <name>"` and the payload stays `nil`
(zero length); otherwise the handler runs, its error string (if non-nil)
and its payload (unconditionally, line 188) are recorded. -/
def dispatch (t : HandlerTable) (method payload : Bytes) : RPCResponse :=
  match lookupHandler t method with
  | none => { error := noCoordPrefix ++ method, payload := [] }
  | some h =>
    let r := h payload
    { error := (r.2).getD [], payload := r.1 }

/-- Result of one iteration of `RPCServer.handleConnection`. -/
inductive ServerStep where
  | closed
  | panicked
  | reply (response : Bytes) (rest : Bytes)
deriving DecidableEq, Repr

/-- One iteration of the per-connection loop (rpc.go lines 112–235):
read the total frame length (any failure → connection closed),
reject `totalFrameLen ≤ 0`, read exactly that many bytes, parse the
request body, dispatch, encode and send the response frame, and continue
with the remaining stream. -/
def serverStep (t : HandlerTable) (stream : Bytes) : ServerStep :=
  match readInt32 stream with
  | none => .closed
  | some (totalFrameLen, rest) =>
    if totalFrameLen ≤ 0 then .closed
    else if rest.length < totalFrameLen.toNat then .closed
    else
      match decodeRequestBody (rest.take totalFrameLen.toNat) with
      | .connErr => .closed
      | .panicked => .panicked
      | .ok (method, payload) =>
        let resp := dispatch t method payload
        .reply (EncodeResponse resp.error resp.payload) (rest.drop totalFrameLen.toNat)

/-- The per-connection loop run on an incoming byte stream, collecting the
response frames sent, with fuel for termination (each iteration consumes
at least five bytes of the stream, so `stream.length` fuel is enough). -/
def serverRun (t : HandlerTable) : Nat → Bytes → List Bytes
  | 0, _ => []
  | fuel + 1, stream =>
    match serverStep t stream with
    | .closed => []
    | .panicked => []
    | .reply resp rest => resp :: serverRun t fuel rest

/-! ## RPCClient.Call: transmission, response handling, connection fate -/

/-- Behaviour of the four raw socket operations `Call` performs on the
connection (rpc.go lines 443–475): each either succeeds or fails with an
I/O error carrying the underlying cause's message. -/
inductive RecvLen where
  | eofErr (cause : Bytes)
  | ioErr (cause : Bytes)
  | ok (totalLen : Int)
deriving DecidableEq

/-- `io.ReadFull(conn, resFrameData)`: fails, or delivers the frame
bytes (exactly `resTotalFrameLen` of them when the wire is honest). -/
inductive RecvFrame where
  | ioErr (cause : Bytes)
  | ok (frameData : Bytes)
deriving DecidableEq

structure Wire where
  sendLenErr : Option Bytes
  sendFrameErr : Option Bytes
  recvLen : RecvLen
  recvFrame : RecvFrame
deriving DecidableEq

/-- What `RPCClient.Call` returns.  `parseErr` stands for the
response-body read failures of rpc.go lines 478–501 (error message not
modelled; each such branch returns a non-nil error mentioning the target
address and sets `connHealthy = false`); `unmarshalErr` for the
`proto.Unmarshal` failure of line 509 (which keeps the connection
healthy); `panicked` for the `make([]byte, n)` runtime panic on a
negative inner length field. -/
inductive CallResult (α : Type) where
  | ok (resp : α)
  | err (msg : Bytes)
  | parseErr
  | unmarshalErr
  | panicked
deriving DecidableEq

/-- Result of `Call` from the point where a connection is held: the
returned value and the final value of the `connHealthy` flag consumed by
the deferred cleanup (rpc.go lines 405–414). -/
structure CallOutcome (α : Type) where
  result : CallResult α
  connHealthy : Bool
deriving DecidableEq

/-- `fmt.Errorf("RPCClient: failed to send request total frame length for method %s to %s: %w", ...)` (rpc.go line 447). -/
def sendLenErrMsg (methodName targetAddr cause : Bytes) : Bytes :=
  rpccPrefix ++ sendPhaseMark ++ lenForMethodSep ++ methodName ++ toSep ++ targetAddr ++
    colonSep ++ cause

/-- `fmt.Errorf("RPCClient: failed to send request frame for method %s to %s: %w", ...)` (rpc.go line 452). -/
def sendFrameErrMsg (methodName targetAddr cause : Bytes) : Bytes :=
  rpccPrefix ++ sendPhaseMark ++ frameForMethodSep ++ methodName ++ toSep ++ targetAddr ++
    colonSep ++ cause

/-- `fmt.Errorf("RPCClient: connection closed by server %s while reading response total frame length for method %s: %w", ...)` (rpc.go line 461). -/
def recvLenEofErrMsg (targetAddr methodName cause : Bytes) : Bytes :=
  rpccPrefix ++ connClosedByMark ++ targetAddr ++ whileReadingSep ++ respMark ++
    lenForMethodSep ++ methodName ++ colonSep ++ cause

/-- `fmt.Errorf("RPCClient: failed to read response total frame length from %s for method %s: %w", ...)` (rpc.go line 463). -/
def recvLenErrMsg (targetAddr methodName cause : Bytes) : Bytes :=
  rpccPrefix ++ readFailMark ++ respMark ++ lenFromSep ++ targetAddr ++ forMethodSep ++
    methodName ++ colonSep ++ cause

/-- `fmt.Errorf("RPCClient: invalid response total frame length %d received from %s for method %s", ...)` (rpc.go line 468). -/
def invalidLenErrMsg (totalLen : Int) (targetAddr methodName : Bytes) : Bytes :=
  rpccPrefix ++ invalidMark ++ respMark ++ lenSpaceSep ++ intDecimal totalLen ++
    recvdFromSep ++ targetAddr ++ forMethodSep ++ methodName

/-- `fmt.Errorf("RPCClient: failed to read response frame data from %s for method %s: %w", ...)` (rpc.go line 474). -/
def recvFrameErrMsg (targetAddr methodName cause : Bytes) : Bytes :=
  rpccPrefix ++ readFailMark ++ respMark ++ frameDataFromSep ++ targetAddr ++ forMethodSep ++
    methodName ++ colonSep ++ cause

/-- `fmt.Errorf("RPC call to method '%s' on service '%s' at '%s' failed: %s", ...)` (rpc.go line 505). -/
def appFailMsg (methodName serviceName targetAddr errStr : Bytes) : Bytes :=
  appErrA ++ methodName ++ appErrB ++ serviceName ++ appErrC ++ targetAddr ++ appErrD ++ errStr

/-- The transmission/response part of `RPCClient.Call` (rpc.go lines
443–521), given the wire behaviour `w` of the held connection.
`unmarshal` models `proto.Unmarshal(resPayloadBytes, responseProto)`
(`none` = unmarshal error; `some r` = `responseProto` now holds `r`); it
is only invoked when `resPayloadLen > 0`. -/
def clientCall (w : Wire) (serviceName methodName targetAddr : Bytes)
    (responseProto : α) (unmarshal : Bytes → α → Option α) : CallOutcome α :=
  match w.sendLenErr with
  | some cause => ⟨.err (sendLenErrMsg methodName targetAddr cause), false⟩
  | none =>
  match w.sendFrameErr with
  | some cause => ⟨.err (sendFrameErrMsg methodName targetAddr cause), false⟩
  | none =>
  match w.recvLen with
  | .eofErr cause => ⟨.err (recvLenEofErrMsg targetAddr methodName cause), false⟩
  | .ioErr cause => ⟨.err (recvLenErrMsg targetAddr methodName cause), false⟩
  | .ok totalLen =>
    if totalLen ≤ 0 then
      ⟨.err (invalidLenErrMsg totalLen targetAddr methodName), false⟩
    else
    match w.recvFrame with
    | .ioErr cause => ⟨.err (recvFrameErrMsg targetAddr methodName cause), false⟩
    | .ok frameData =>
      match decodeResponseBody frameData with
      | .panicked => ⟨.panicked, true⟩
      | .connErr => ⟨.parseErr, false⟩
      | .ok (errStr, payload) =>
        if errStr ≠ [] then
          ⟨.err (appFailMsg methodName serviceName targetAddr errStr), true⟩
        else if payload.length > 0 then
          match unmarshal payload responseProto with
          | none => ⟨.unmarshalErr, true⟩
          | some r => ⟨.ok r, true⟩
        else ⟨.ok responseProto, true⟩

/-- What becomes of the held connection after `Call` finishes. -/
inductive ConnFate where
  | pooled
  | closedSurplus
  | closedBroken
  | closedNoPool
deriving DecidableEq, Repr

/-- `RPCClient.returnConnection` (rpc.go lines 319–342): if the pool
channel for the endpoint exists, a buffered send is attempted — it
succeeds exactly when the pool holds fewer than `maxConnsPerEndpoint`
idle connections, otherwise the surplus connection is closed. -/
def returnConnection (poolExists : Bool) (poolSize maxConns : Nat) : ConnFate :=
  if poolExists then
    (if poolSize < maxConns then .pooled else .closedSurplus)
  else .closedNoPool

/-- The deferred cleanup of `Call` (rpc.go lines 405–414): a healthy
connection is returned via `returnConnection` (the pool always exists
here, created by `getConnection`); an unhealthy one is closed. -/
def connFate (connHealthy : Bool) (poolSize maxConns : Nat) : ConnFate :=
  if connHealthy then returnConnection true poolSize maxConns else .closedBroken

/-! ## Round-robin instance selection

`RPCClient` keeps `nextInstance map[string]uint64` (missing keys read as
0, the Go map zero value) guarded by `nextInstanceMu`.  For a `Call`
whose `serviceName` is not a literal `host:port` (so Consul discovery
runs) and whose discovered instance list is non-empty, rpc.go lines
383–387 select `instances[currentIndex % uint64(len(instances))]` and
store `currentIndex + 1` (wrapping uint64 arithmetic). -/

/-- The `nextInstance` counter map, keyed by service name. -/
def SvcMap := Bytes → Nat

/-- Store a counter value (Go map assignment). -/
def svcSet (f : SvcMap) (s : Bytes) (v : Nat) : SvcMap :=
  fun k => if k = s then v else f k

/-- One round-robin selection against `n = len(instances)` (required
positive by the caller's emptiness check): chosen index and updated map.
The counter is a uint64, so the increment wraps at `2^64`. -/
def rrSelect (st : SvcMap) (svc : Bytes) (n : Nat) : Nat × SvcMap :=
  (st svc % n, svcSet st svc ((st svc + 1) % 18446744073709551616))

/-- Run a sequence of discovery-based Calls, each seeing some instance
count, collecting the chosen indices. -/
def rrRun (st : SvcMap) : List (Bytes × Nat) → List Nat × SvcMap
  | [] => ([], st)
  | (svc, n) :: rest =>
    let x := rrSelect st svc n
    let y := rrRun x.2 rest
    (x.1 :: y.1, y.2)

/-- Fresh client: `nextInstance` is an empty map, every key reads 0. -/
def rrInit : SvcMap := fun _ => 0

/-- The claim's selection rule, stated in its own words: on each call the
chosen index is `c % n` where `c` counts the calls already made for that
same service name (starting at 0, incremented by exactly one per call,
never reset). -/
def rrSpecChosen (priorCount : Bytes → Nat) : List (Bytes × Nat) → List Nat
  | [] => []
  | (svc, n) :: rest =>
    (priorCount svc % n) ::
      rrSpecChosen (fun s => if s = svc then priorCount s + 1 else priorCount s) rest

theorem rrRun_eq_spec (calls : List (Bytes × Nat)) :
    ∀ (st : SvcMap) (past : Bytes → Nat),
      (∀ svc, st svc = past svc % 18446744073709551616) →
      (∀ svc, past svc + calls.length ≤ 18446744073709551616) →
      (rrRun st calls).1 = rrSpecChosen past calls := by
  induction calls with
  | nil => intro st past _ _; rfl
  | cons hd tl ih =>
    intro st past hst hbound
    obtain ⟨svc, n⟩ := hd
    have hlt : past svc < 18446744073709551616 := by
      have := hbound svc
      simp only [List.length_cons] at this
      omega
    simp only [rrRun, rrSpecChosen, rrSelect]
    rw [hst svc, Nat.mod_eq_of_lt hlt]
    congr 1
    · apply ih
      · intro s
        by_cases hs : s = svc
        · subst hs
          simp [svcSet, hst s]
        · simp [svcSet, if_neg hs, hst s]
      · intro s
        have := hbound s
        simp only [List.length_cons] at this
        by_cases hs : s = svc
        · subst hs; simp; omega
        · simp [if_neg hs]; omega

/-! ## Actor.Tell on a running actor

actor.go lines 103–133: a nil message is rejected; otherwise a
non-blocking `select` tries `a.mailbox <- msg` / `<-a.stopCh` / `default`,
and the `default` branch retries the same `select` once more before
returning the mailbox-full error.  On a running actor (`stopCh` open) the
stop case is never ready, so the behaviour is deterministic: the buffered
send is ready exactly when the mailbox holds fewer than `size` messages,
and otherwise both selects fall through to `default`. -/

inductive TellResult (M : Type) where
  | enqueued (mailbox : List M)
  | errNilMessage
  | errMailboxFull
deriving DecidableEq

/-- The error string carried by each `Tell` error return on a running
actor (`errors.New(...)` in actor.go lines 105 and 130). -/
def tellErrText {M : Type} : TellResult M → Option String
  | .enqueued _ => none
  | .errNilMessage => some "cannot Tell a nil message"
  | .errMailboxFull => some "actor mailbox is full"

/-- `Actor.Tell` on a running actor with mailbox contents `mailbox` and
mailbox capacity `size`. -/
def tellRunning {M : Type} (mailbox : List M) (size : Nat) (message : Option M) :
    TellResult M :=
  match message with
  | none => .errNilMessage
  | some m =>
    if mailbox.length < size then .enqueued (mailbox ++ [m]) else .errMailboxFull

/-! ## Actor Ask/Stop: a small-step interleaving model

Shallow embedding of the concurrent behaviour of actor.go for a scenario
in which a number of `Ask` calls have already enqueued their messages
(actor.go lines 156–163 succeeded) and no further sends occur.  The model
has three kinds of tasks, interleaved by a nondeterministic scheduler:

* one caller per pending Ask, sitting in the four-way `select` of lines
  166–180 (reply channel, error channel, caller context, `stopCh`);
* the actor's `run` loop (lines 194–254): the main `select` (mailbox
  receive vs. `stopCh`), delivery of a processed result through the
  buffered one-shot channel pair (send vs. `stopCh` vs. message context,
  lines 230–243, followed by closing both channels), and the deferred
  drain-and-exit (lines 196–209: close the mailbox, push a
  "stopped before processing" error to each remaining Ask's error
  channel, then `wg.Done()`);
* `Stop()` (lines 185–190): `close(stopCh)` then `wg.Wait()`.

Go channel semantics modelled exactly: a receive from a closed channel
with an empty buffer yields the zero value (`nil`), so the caller's
`case response := <-replyCh` / `case err := <-errorCh` arms can complete
with `(nil, nil)` after the loop closed the channels without sending; a
buffered send is ready iff the one-slot buffer is free; when several
`select` cases are ready one is chosen nondeterministically (here: by the
scheduler's choice of step).  A Go `select` is one atomic commitment
point, so each model step performs one such commitment (delivery steps
also perform the two `close` calls that immediately follow, which no
other task observes in between except through the closed flags they set).
The processor (`ProcessMessage`) is a terminating function of the
message, indexed here by the caller id; its result is either a reply
value (`Option V`, `none` being a nil `proto.Message` reply) or an
error. -/

/-- Ask caller program counter: still in the four-way `select`, or
returned with `(response, err)`. -/
inductive CallerPc (V : Type) where
  | waiting
  | done (resp : Option V) (errMsg : Option String)
deriving DecidableEq

/-- One pending Ask caller together with its one-shot channel pair
(`replyCh`/`errorCh`, each buffered with capacity 1) and its context. -/
structure CallerSt (V : Type) where
  pc : CallerPc V
  replyBuf : Option (Option V)
  replyClosed : Bool
  errBuf : Option String
  errClosed : Bool
  ctxCanFire : Bool
  ctxFired : Bool
deriving DecidableEq

instance {ε α : Type} [DecidableEq ε] [DecidableEq α] : DecidableEq (Except ε α) := fun x y =>
  match x, y with
  | .ok a, .ok b =>
    if h : a = b then .isTrue (congrArg Except.ok h)
    else .isFalse (fun hh => h (Except.ok.inj hh))
  | .error a, .error b =>
    if h : a = b then .isTrue (congrArg Except.error h)
    else .isFalse (fun hh => h (Except.error.inj hh))
  | .ok _, .error _ => .isFalse (fun hh => Except.noConfusion hh)
  | .error _, .ok _ => .isFalse (fun hh => Except.noConfusion hh)

/-- The run loop: in the main select, between processing and delivery of
caller `cid`'s result, or exited (after the deferred drain ran and
`wg.Done` was called). -/
inductive LoopPc (V : Type) where
  | running
  | deliver (cid : Nat) (r : Except String (Option V))
  | exited
deriving DecidableEq

/-- `Stop()`: not yet called, called (`stopCh` closed) and blocked in
`wg.Wait()`, or returned. -/
inductive StopPc where
  | idle
  | waitingJoin
  | returned
deriving DecidableEq

/-- Global state: the mailbox (a FIFO of caller ids of pending Asks), the
`stopCh` closed flag, the Stop and loop tasks, and the callers.
`stopEnabled` is the scenario parameter saying whether anyone ever calls
`Stop()`. -/
structure ActorSt (V : Type) where
  mailbox : List Nat
  mailboxClosed : Bool
  stopClosed : Bool
  stopEnabled : Bool
  stopPc : StopPc
  loopPc : LoopPc V
  callers : List (CallerSt V)
deriving DecidableEq

/-- `errors.New("actor stopped while Ask was waiting for a reply")`,
actor.go line 179. -/
def askStopMsg : String := "actor stopped while Ask was waiting for a reply"

/-- `errors.New("actor stopped before processing Ask message")`,
actor.go line 203. -/
def drainStopMsg : String := "actor stopped before processing Ask message"

/-- `ctx.Err()` of a fired caller context (external library value). -/
def ctxDoneMsg : String := "context canceled"

/-- Scheduler choices: which enabled `select` commitment / task step runs
next. -/
inductive AChoice where
  | stopClose
  | stopJoin
  | ctxFire (i : Nat)
  | loopProcess
  | deliverSend
  | deliverSkipStop
  | deliverSkipCtx
  | drainExit
  | recvReply (i : Nat)
  | recvReplyClosed (i : Nat)
  | recvErr (i : Nat)
  | recvErrClosed (i : Nat)
  | recvCtx (i : Nat)
  | recvStop (i : Nat)
deriving DecidableEq

/-- Replace caller `i`. -/
def setCaller {V : Type} (s : ActorSt V) (i : Nat) (c : CallerSt V) : ActorSt V :=
  { s with callers := s.callers.set i c }

/-- `close(msg.replyCh); close(msg.errorCh)` (actor.go lines 244–245). -/
def closeChans {V : Type} (c : CallerSt V) : CallerSt V :=
  { c with replyClosed := true, errClosed := true }

/-- The drain's per-message action (actor.go lines 201–206): a
non-blocking send of the stop error on the Ask's error channel (ready iff
the one-slot buffer is free; the channel of an undelivered message is
never closed here, see the invariants). -/
def drainOne {V : Type} (c : CallerSt V) : CallerSt V :=
  match c.errBuf, c.errClosed with
  | none, false => { c with errBuf := some drainStopMsg }
  | _, _ => c

/-- Apply `drainOne` to every caller whose message is still in the
mailbox (the drain's `for msg := range a.mailbox`). -/
def drainCallers {V : Type} : List Nat → List (CallerSt V) → List (CallerSt V)
  | [], cs => cs
  | i :: rest, cs =>
    drainCallers rest
      (match cs[i]? with
       | some c => cs.set i (drainOne c)
       | none => cs)

/-- One interleaving step.  `procFn i` is the processor's result for
caller `i`'s message.  `none` = the chosen select case / task step is not
enabled in this state. -/
def astep {V : Type} (procFn : Nat → Except String (Option V)) (s : ActorSt V) :
    AChoice → Option (ActorSt V)
  | .stopClose =>
    match s.stopPc, s.stopEnabled with
    | .idle, true => some { s with stopClosed := true, stopPc := .waitingJoin }
    | _, _ => none
  | .stopJoin =>
    match s.stopPc, s.loopPc with
    | .waitingJoin, .exited => some { s with stopPc := .returned }
    | _, _ => none
  | .ctxFire i =>
    match s.callers[i]? with
    | some c =>
      if c.ctxCanFire && !c.ctxFired then some (setCaller s i { c with ctxFired := true })
      else none
    | none => none
  | .loopProcess =>
    match s.loopPc, s.mailbox with
    | .running, cid :: rest =>
      some { s with mailbox := rest, loopPc := .deliver cid (procFn cid) }
    | _, _ => none
  | .deliverSend =>
    match s.loopPc with
    | .deliver cid r =>
      match s.callers[cid]? with
      | some c =>
        match r with
        | .ok v =>
          match c.replyBuf, c.replyClosed with
          | none, false =>
            some { setCaller s cid (closeChans { c with replyBuf := some v }) with
                   loopPc := .running }
          | _, _ => none
        | .error e =>
          match c.errBuf, c.errClosed with
          | none, false =>
            some { setCaller s cid (closeChans { c with errBuf := some e }) with
                   loopPc := .running }
          | _, _ => none
      | none => none
    | _ => none
  | .deliverSkipStop =>
    match s.loopPc with
    | .deliver cid _ =>
      if s.stopClosed then
        match s.callers[cid]? with
        | some c => some { setCaller s cid (closeChans c) with loopPc := .running }
        | none => none
      else none
    | _ => none
  | .deliverSkipCtx =>
    match s.loopPc with
    | .deliver cid _ =>
      match s.callers[cid]? with
      | some c =>
        if c.ctxFired then some { setCaller s cid (closeChans c) with loopPc := .running }
        else none
      | none => none
    | _ => none
  | .drainExit =>
    match s.loopPc with
    | .running =>
      if s.stopClosed then
        some { s with
               mailbox := []
               mailboxClosed := true
               loopPc := .exited
               callers := drainCallers s.mailbox s.callers }
      else none
    | _ => none
  | .recvReply i =>
    match s.callers[i]? with
    | some c =>
      match c.pc, c.replyBuf with
      | .waiting, some v => some (setCaller s i { c with pc := .done v none, replyBuf := none })
      | _, _ => none
    | none => none
  | .recvReplyClosed i =>
    match s.callers[i]? with
    | some c =>
      match c.pc, c.replyBuf, c.replyClosed with
      | .waiting, none, true => some (setCaller s i { c with pc := .done none none })
      | _, _, _ => none
    | none => none
  | .recvErr i =>
    match s.callers[i]? with
    | some c =>
      match c.pc, c.errBuf with
      | .waiting, some e =>
        some (setCaller s i { c with pc := .done none (some e), errBuf := none })
      | _, _ => none
    | none => none
  | .recvErrClosed i =>
    match s.callers[i]? with
    | some c =>
      match c.pc, c.errBuf, c.errClosed with
      | .waiting, none, true => some (setCaller s i { c with pc := .done none none })
      | _, _, _ => none
    | none => none
  | .recvCtx i =>
    match s.callers[i]? with
    | some c =>
      match c.pc, c.ctxFired with
      | .waiting, true => some (setCaller s i { c with pc := .done none (some ctxDoneMsg) })
      | _, _ => none
    | none => none
  | .recvStop i =>
    match s.callers[i]? with
    | some c =>
      match c.pc, s.stopClosed with
      | .waiting, true => some (setCaller s i { c with pc := .done none (some askStopMsg) })
      | _, _ => none
    | none => none

/-- Run a list of scheduler choices. -/
def arun {V : Type} (procFn : Nat → Except String (Option V)) :
    List AChoice → ActorSt V → Option (ActorSt V)
  | [], s => some s
  | ch :: rest, s =>
    match astep procFn s ch with
    | some s2 => arun procFn rest s2
    | none => none

/-- Reachability: some scheduling of enabled steps leads from `init` to
`s`. -/
def AReach {V : Type} (procFn : Nat → Except String (Option V))
    (init s : ActorSt V) : Prop :=
  ∃ tr, arun procFn tr init = some s

/-- A state in which no task has any enabled step. -/
def ATerminal {V : Type} (procFn : Nat → Except String (Option V)) (s : ActorSt V) : Prop :=
  ∀ ch, astep procFn s ch = none

/-- A fresh Ask caller, message already enqueued, waiting in the four-way
select; `canFire` says whether its context can ever be cancelled / time
out. -/
def initCaller (V : Type) (canFire : Bool) : CallerSt V :=
  { pc := .waiting, replyBuf := none, replyClosed := false,
    errBuf := none, errClosed := false, ctxCanFire := canFire, ctxFired := false }

/-- Scenario start state: `n` Ask calls have enqueued their messages (in
caller order), the loop is in its main select, `Stop()` not yet called. -/
def askInit (V : Type) (n : Nat) (canFire stopEnabled : Bool) : ActorSt V :=
  { mailbox := List.range n, mailboxClosed := false, stopClosed := false,
    stopEnabled := stopEnabled, stopPc := .idle, loopPc := .running,
    callers := List.replicate n (initCaller V canFire) }

/-! ### Generic list helpers for the model proofs -/

theorem getElem?_some_lt {α : Type} {l : List α} {i : Nat} {c : α}
    (h : l[i]? = some c) : i < l.length :=
  (List.getElem?_eq_some_iff.mp h).choose

theorem sum_map_set {α : Type} (f : α → Nat) :
    ∀ (l : List α) (i : Nat) (a c : α), l[i]? = some c →
      ((l.set i a).map f).sum + f c = (l.map f).sum + f a := by
  intro l
  induction l with
  | nil => intro i a c h; simp at h
  | cons hd tl ih =>
    intro i a c h
    cases i with
    | zero =>
      simp at h
      subst h
      simp [List.set]
      omega
    | succ j =>
      simp at h
      have := ih j a c h
      show ((hd :: tl.set j a).map f).sum + f c = ((hd :: tl).map f).sum + f a
      simp only [List.map_cons, List.sum_cons]
      omega

/-! ### Termination measure: every step strictly decreases it -/

/-- Caller task measure: one unit for being unresolved, one for a context
that can still fire. -/
def callerMeasure {V : Type} (c : CallerSt V) : Nat :=
  (match c.pc with | .waiting => 1 | .done _ _ => 0) +
  (if c.ctxCanFire && !c.ctxFired then 1 else 0)

def loopMeasure {V : Type} : LoopPc V → Nat
  | .running => 1
  | .deliver _ _ => 2
  | .exited => 0

def stopMeasure : StopPc → Nat
  | .idle => 2
  | .waitingJoin => 1
  | .returned => 0

def ameasure {V : Type} (s : ActorSt V) : Nat :=
  stopMeasure s.stopPc + loopMeasure s.loopPc + 2 * s.mailbox.length +
    (s.callers.map callerMeasure).sum

theorem callerMeasure_drainOne {V : Type} (c : CallerSt V) :
    callerMeasure (drainOne c) = callerMeasure c := by
  unfold drainOne
  rcases c with ⟨pc, rb, rc, eb, ec, cf, cfd⟩
  cases eb <;> cases ec <;> rfl

theorem drainCallers_length {V : Type} :
    ∀ (ids : List Nat) (cs : List (CallerSt V)),
      (drainCallers ids cs).length = cs.length := by
  intro ids
  induction ids with
  | nil => intro cs; rfl
  | cons j rest ih =>
    intro cs
    unfold drainCallers
    cases h : cs[j]? with
    | none => simpa using ih cs
    | some c => simpa [List.length_set] using ih (cs.set j (drainOne c))

theorem drainCallers_sum {V : Type} :
    ∀ (ids : List Nat) (cs : List (CallerSt V)),
      ((drainCallers ids cs).map callerMeasure).sum = (cs.map callerMeasure).sum := by
  intro ids
  induction ids with
  | nil => intro cs; rfl
  | cons j rest ih =>
    intro cs
    unfold drainCallers
    cases h : cs[j]? with
    | none => simpa using ih cs
    | some c =>
      dsimp only
      have hset := sum_map_set callerMeasure cs j (drainOne c) c h
      have hih := ih (cs.set j (drainOne c))
      rw [callerMeasure_drainOne] at hset
      omega

/-- Every enabled step strictly decreases the measure, so the model has
no infinite executions: an Ask caller cannot be starved forever by the
other tasks running without it. -/
theorem astep_measure {V : Type} (procFn : Nat → Except String (Option V))
    (s s' : ActorSt V) (ch : AChoice) (h : astep procFn s ch = some s') :
    ameasure s' < ameasure s := by
  cases ch with
  | stopClose =>
    simp only [astep] at h
    split at h
    next hpc hen =>
      injection h with hX
      subst hX
      simp only [ameasure]
      rw [hpc]
      simp [stopMeasure]
    next => exact absurd h (by simp)
  | stopJoin =>
    simp only [astep] at h
    split at h
    next hpc hloop =>
      injection h with hX
      subst hX
      simp only [ameasure]
      rw [hpc]
      simp [stopMeasure]
    next => exact absurd h (by simp)
  | ctxFire i =>
    simp only [astep] at h
    split at h
    next c heq =>
      split at h
      · next hguard =>
        injection h with hX
        subst hX
        have hsum := sum_map_set callerMeasure s.callers i { c with ctxFired := true } c heq
        simp only [Bool.and_eq_true, Bool.not_eq_true'] at hguard
        have hcm : callerMeasure { c with ctxFired := true } + 1 = callerMeasure c := by
          simp [callerMeasure, hguard.1, hguard.2]
        simp only [ameasure, setCaller]
        omega
      · exact absurd h (by simp)
    next => exact absurd h (by simp)
  | loopProcess =>
    simp only [astep] at h
    split at h
    next cid rest hloop hmb =>
      injection h with hX
      subst hX
      simp only [ameasure]
      rw [hloop, hmb]
      simp [loopMeasure]
      omega
    next => exact absurd h (by simp)
  | deliverSend =>
    simp only [astep] at h
    split at h
    next cid r hloop =>
      split at h
      next c heq =>
        split at h
        next v =>
          split at h
          next hrb hrc =>
            injection h with hX
            subst hX
            have hsum := sum_map_set callerMeasure s.callers cid
              (closeChans { c with replyBuf := some v }) c heq
            have hcm : callerMeasure (closeChans { c with replyBuf := some v }) =
                callerMeasure c := by simp [callerMeasure, closeChans]
            simp only [ameasure, setCaller]
            rw [hloop]
            simp only [loopMeasure]
            omega
          next => exact absurd h (by simp)
        next e =>
          split at h
          next heb hec =>
            injection h with hX
            subst hX
            have hsum := sum_map_set callerMeasure s.callers cid
              (closeChans { c with errBuf := some e }) c heq
            have hcm : callerMeasure (closeChans { c with errBuf := some e }) =
                callerMeasure c := by simp [callerMeasure, closeChans]
            simp only [ameasure, setCaller]
            rw [hloop]
            simp only [loopMeasure]
            omega
          next => exact absurd h (by simp)
      next => exact absurd h (by simp)
    next => exact absurd h (by simp)
  | deliverSkipStop =>
    simp only [astep] at h
    split at h
    next cid r hloop =>
      split at h
      · split at h
        next c heq =>
          injection h with hX
          subst hX
          have hsum := sum_map_set callerMeasure s.callers cid (closeChans c) c heq
          have hcm : callerMeasure (closeChans c) = callerMeasure c := by
            simp [callerMeasure, closeChans]
          simp only [ameasure, setCaller]
          rw [hloop]
          simp only [loopMeasure]
          omega
        next => exact absurd h (by simp)
      · exact absurd h (by simp)
    next => exact absurd h (by simp)
  | deliverSkipCtx =>
    simp only [astep] at h
    split at h
    next cid r hloop =>
      split at h
      next c heq =>
        split at h
        · injection h with hX
          subst hX
          have hsum := sum_map_set callerMeasure s.callers cid (closeChans c) c heq
          have hcm : callerMeasure (closeChans c) = callerMeasure c := by
            simp [callerMeasure, closeChans]
          simp only [ameasure, setCaller]
          rw [hloop]
          simp only [loopMeasure]
          omega
        · exact absurd h (by simp)
      next => exact absurd h (by simp)
    next => exact absurd h (by simp)
  | drainExit =>
    simp only [astep] at h
    split at h
    next hloop =>
      split at h
      · injection h with hX
        subst hX
        have hsum := drainCallers_sum s.mailbox s.callers
        simp only [ameasure]
        rw [hloop]
        simp only [loopMeasure, List.length_nil]
        omega
      · exact absurd h (by simp)
    next => exact absurd h (by simp)
  | recvReply i =>
    simp only [astep] at h
    split at h
    next c heq =>
      split at h
      next v hpc hrb =>
        injection h with hX
        subst hX
        have hsum := sum_map_set callerMeasure s.callers i
          { c with pc := .done v none, replyBuf := none } c heq
        have hcm : callerMeasure { c with pc := CallerPc.done v none, replyBuf := none } + 1 =
            callerMeasure c := by simp [callerMeasure, hpc] <;> omega
        simp only [ameasure, setCaller]
        omega
      next => exact absurd h (by simp)
    next => exact absurd h (by simp)
  | recvReplyClosed i =>
    simp only [astep] at h
    split at h
    next c heq =>
      split at h
      next hpc hrb hrc =>
        injection h with hX
        subst hX
        have hsum := sum_map_set callerMeasure s.callers i
          { c with pc := .done none none } c heq
        have hcm : callerMeasure { c with pc := CallerPc.done (none : Option V) none } + 1 =
            callerMeasure c := by simp [callerMeasure, hpc] <;> omega
        simp only [ameasure, setCaller]
        omega
      next => exact absurd h (by simp)
    next => exact absurd h (by simp)
  | recvErr i =>
    simp only [astep] at h
    split at h
    next c heq =>
      split at h
      next e hpc heb =>
        injection h with hX
        subst hX
        have hsum := sum_map_set callerMeasure s.callers i
          { c with pc := .done none (some e), errBuf := none } c heq
        have hcm : callerMeasure { c with pc := CallerPc.done (none : Option V) (some e), errBuf := none } + 1 = callerMeasure c := by simp [callerMeasure, hpc] <;> omega
        simp only [ameasure, setCaller]
        omega
      next => exact absurd h (by simp)
    next => exact absurd h (by simp)
  | recvErrClosed i =>
    simp only [astep] at h
    split at h
    next c heq =>
      split at h
      next hpc heb hec =>
        injection h with hX
        subst hX
        have hsum := sum_map_set callerMeasure s.callers i
          { c with pc := .done none none } c heq
        have hcm : callerMeasure { c with pc := CallerPc.done (none : Option V) none } + 1 =
            callerMeasure c := by simp [callerMeasure, hpc] <;> omega
        simp only [ameasure, setCaller]
        omega
      next => exact absurd h (by simp)
    next => exact absurd h (by simp)
  | recvCtx i =>
    simp only [astep] at h
    split at h
    next c heq =>
      split at h
      next hpc hcf =>
        injection h with hX
        subst hX
        have hsum := sum_map_set callerMeasure s.callers i
          { c with pc := .done none (some ctxDoneMsg) } c heq
        have hcm : callerMeasure { c with pc := CallerPc.done (none : Option V) (some ctxDoneMsg) } + 1 = callerMeasure c := by simp [callerMeasure, hpc] <;> omega
        simp only [ameasure, setCaller]
        omega
      next => exact absurd h (by simp)
    next => exact absurd h (by simp)
  | recvStop i =>
    simp only [astep] at h
    split at h
    next c heq =>
      split at h
      next hpc hsc =>
        injection h with hX
        subst hX
        have hsum := sum_map_set callerMeasure s.callers i
          { c with pc := .done none (some askStopMsg) } c heq
        have hcm : callerMeasure { c with pc := CallerPc.done (none : Option V) (some askStopMsg) } + 1 = callerMeasure c := by simp [callerMeasure, hpc] <;> omega
        simp only [ameasure, setCaller]
        omega
      next => exact absurd h (by simp)
    next => exact absurd h (by simp)

/-- Executions are bounded: a run of `tr` steps needs `tr.length ≤ ameasure s`. -/
theorem arun_length_le {V : Type} (procFn : Nat → Except String (Option V)) :
    ∀ (tr : List AChoice) (s s' : ActorSt V), arun procFn tr s = some s' →
      tr.length + ameasure s' ≤ ameasure s := by
  intro tr
  induction tr with
  | nil =>
    intro s s' h
    injection h with h
    subst h
    simp
  | cons ch rest ih =>
    intro s s' h
    simp only [arun] at h
    cases hstep : astep procFn s ch with
    | none => rw [hstep] at h; exact absurd h (by simp)
    | some s2 =>
      rw [hstep] at h
      dsimp only at h
      have h1 := astep_measure procFn s s2 ch hstep
      have h2 := ih s2 s' h
      simp only [List.length_cons]
      omega

theorem drainOne_pc {V : Type} (c : CallerSt V) : (drainOne c).pc = c.pc := by
  rcases c with ⟨pc, rb, rc, eb, ec, cf, cfd⟩
  unfold drainOne
  cases eb <;> cases ec <;> rfl

theorem drainOne_fields {V : Type} (c : CallerSt V) :
    (drainOne c).pc = c.pc ∧ (drainOne c).replyBuf = c.replyBuf ∧
    (drainOne c).replyClosed = c.replyClosed ∧ (drainOne c).errClosed = c.errClosed ∧
    (drainOne c).ctxCanFire = c.ctxCanFire ∧ (drainOne c).ctxFired = c.ctxFired ∧
    ((drainOne c).errBuf = c.errBuf ∨ (drainOne c).errBuf = some drainStopMsg) := by
  rcases c with ⟨pc, rb, rc, eb, ec, cf, cfd⟩
  unfold drainOne
  cases eb <;> cases ec <;> simp

theorem drainOne_drainOne {V : Type} (c : CallerSt V) :
    drainOne (drainOne c) = drainOne c := by
  rcases c with ⟨pc, rb, rc, eb, ec, cf, cfd⟩
  unfold drainOne
  cases eb <;> cases ec <;> rfl

theorem drainCallers_getElem {V : Type} :
    ∀ (ids : List Nat) (cs : List (CallerSt V)) (i : Nat),
      (drainCallers ids cs)[i]? = cs[i]? ∨
      (∃ c, cs[i]? = some c ∧ (drainCallers ids cs)[i]? = some (drainOne c)) := by
  intro ids
  induction ids with
  | nil => intro cs i; left; rfl
  | cons j rest ih =>
    intro cs i
    unfold drainCallers
    cases hj : cs[j]? with
    | none => simpa using ih cs i
    | some cj =>
      dsimp only
      have hjlt : j < cs.length := getElem?_some_lt hj
      by_cases hij : j = i
      · subst hij
        have hset : (cs.set j (drainOne cj))[j]? = some (drainOne cj) :=
          List.getElem?_set_self (by simpa using hjlt)
        rcases ih (cs.set j (drainOne cj)) j with hL | ⟨c2, hc2, hres⟩
        · right
          exact ⟨cj, hj, by rw [hL, hset]⟩
        · right
          rw [hset] at hc2
          injection hc2 with hc2
          subst hc2
          exact ⟨cj, hj, by rw [hres, drainOne_drainOne]⟩
      · have hset : (cs.set j (drainOne cj))[i]? = cs[i]? := List.getElem?_set_ne hij
        rcases ih (cs.set j (drainOne cj)) i with hL | ⟨c2, hc2, hres⟩
        · left; rw [hL, hset]
        · right
          rw [hset] at hc2
          exact ⟨c2, hc2, hres⟩

/-- A resolved Ask stays resolved with the same outcome: no step delivers
a second outcome to a caller (the "never two" half of the Ask contract). -/
theorem astep_done_absorbing {V : Type} (procFn : Nat → Except String (Option V))
    (s s' : ActorSt V) (ch : AChoice) (h : astep procFn s ch = some s')
    (i : Nat) (c : CallerSt V) (v : Option V) (em : Option String)
    (hc : s.callers[i]? = some c) (hpc : c.pc = .done v em) :
    ∃ c', s'.callers[i]? = some c' ∧ c'.pc = .done v em := by
  have hset_same : ∀ (j : Nat) (cj c2 : CallerSt V), s.callers[j]? = some cj → c2.pc = cj.pc →
      ∃ c', (s.callers.set j c2)[i]? = some c' ∧ c'.pc = .done v em := by
    intro j cj c2 hcj hpcj
    by_cases hij : j = i
    · subst hij
      rw [hcj] at hc
      injection hc with hc
      subst hc
      exact ⟨c2, List.getElem?_set_self (by simpa using getElem?_some_lt hcj), by rw [hpcj, hpc]⟩
    · exact ⟨c, by rw [List.getElem?_set_ne hij]; exact hc, hpc⟩
  cases ch with
  | stopClose =>
    simp only [astep] at h
    split at h
    next => injection h with hX; subst hX; exact ⟨c, hc, hpc⟩
    next => exact absurd h (by simp)
  | stopJoin =>
    simp only [astep] at h
    split at h
    next => injection h with hX; subst hX; exact ⟨c, hc, hpc⟩
    next => exact absurd h (by simp)
  | ctxFire j =>
    simp only [astep] at h
    split at h
    next cj heq =>
      split at h
      · injection h with hX
        subst hX
        exact hset_same j cj _ heq rfl
      · exact absurd h (by simp)
    next => exact absurd h (by simp)
  | loopProcess =>
    simp only [astep] at h
    split at h
    next => injection h with hX; subst hX; exact ⟨c, hc, hpc⟩
    next => exact absurd h (by simp)
  | deliverSend =>
    simp only [astep] at h
    split at h
    next cid r hloop =>
      split at h
      next cj heq =>
        split at h
        next vv =>
          split at h
          next =>
            injection h with hX
            subst hX
            exact hset_same cid cj _ heq rfl
          next => exact absurd h (by simp)
        next e =>
          split at h
          next =>
            injection h with hX
            subst hX
            exact hset_same cid cj _ heq rfl
          next => exact absurd h (by simp)
      next => exact absurd h (by simp)
    next => exact absurd h (by simp)
  | deliverSkipStop =>
    simp only [astep] at h
    split at h
    next cid r hloop =>
      split at h
      · split at h
        next cj heq =>
          injection h with hX
          subst hX
          exact hset_same cid cj _ heq rfl
        next => exact absurd h (by simp)
      · exact absurd h (by simp)
    next => exact absurd h (by simp)
  | deliverSkipCtx =>
    simp only [astep] at h
    split at h
    next cid r hloop =>
      split at h
      next cj heq =>
        split at h
        · injection h with hX
          subst hX
          exact hset_same cid cj _ heq rfl
        · exact absurd h (by simp)
      next => exact absurd h (by simp)
    next => exact absurd h (by simp)
  | drainExit =>
    simp only [astep] at h
    split at h
    next hloop =>
      split at h
      · injection h with hX
        subst hX
        rcases drainCallers_getElem s.mailbox s.callers i with hL | ⟨c2, hc2, hres⟩
        · exact ⟨c, by simpa [hL] using hc, hpc⟩
        · rw [hc] at hc2
          injection hc2 with hc2
          subst hc2
          exact ⟨drainOne c, hres, by rw [drainOne_pc, hpc]⟩
      · exact absurd h (by simp)
    next => exact absurd h (by simp)
  | recvReply j =>
    simp only [astep] at h
    split at h
    next cj heq =>
      split at h
      next vv hpcj hrbj =>
        injection h with hX
        subst hX
        by_cases hij : j = i
        · subst hij
          rw [heq] at hc
          injection hc with hc
          subst hc
          rw [hpc] at hpcj
          exact absurd hpcj (by simp)
        · exact ⟨c, by simp only [setCaller]; rw [List.getElem?_set_ne hij]; exact hc, hpc⟩
      next => exact absurd h (by simp)
    next => exact absurd h (by simp)
  | recvReplyClosed j =>
    simp only [astep] at h
    split at h
    next cj heq =>
      split at h
      next hpcj hrbj hrcj =>
        injection h with hX
        subst hX
        by_cases hij : j = i
        · subst hij
          rw [heq] at hc
          injection hc with hc
          subst hc
          rw [hpc] at hpcj
          exact absurd hpcj (by simp)
        · exact ⟨c, by simp only [setCaller]; rw [List.getElem?_set_ne hij]; exact hc, hpc⟩
      next => exact absurd h (by simp)
    next => exact absurd h (by simp)
  | recvErr j =>
    simp only [astep] at h
    split at h
    next cj heq =>
      split at h
      next e hpcj hebj =>
        injection h with hX
        subst hX
        by_cases hij : j = i
        · subst hij
          rw [heq] at hc
          injection hc with hc
          subst hc
          rw [hpc] at hpcj
          exact absurd hpcj (by simp)
        · exact ⟨c, by simp only [setCaller]; rw [List.getElem?_set_ne hij]; exact hc, hpc⟩
      next => exact absurd h (by simp)
    next => exact absurd h (by simp)
  | recvErrClosed j =>
    simp only [astep] at h
    split at h
    next cj heq =>
      split at h
      next hpcj hebj hecj =>
        injection h with hX
        subst hX
        by_cases hij : j = i
        · subst hij
          rw [heq] at hc
          injection hc with hc
          subst hc
          rw [hpc] at hpcj
          exact absurd hpcj (by simp)
        · exact ⟨c, by simp only [setCaller]; rw [List.getElem?_set_ne hij]; exact hc, hpc⟩
      next => exact absurd h (by simp)
    next => exact absurd h (by simp)
  | recvCtx j =>
    simp only [astep] at h
    split at h
    next cj heq =>
      split at h
      next hpcj hcfj =>
        injection h with hX
        subst hX
        by_cases hij : j = i
        · subst hij
          rw [heq] at hc
          injection hc with hc
          subst hc
          rw [hpc] at hpcj
          exact absurd hpcj (by simp)
        · exact ⟨c, by simp only [setCaller]; rw [List.getElem?_set_ne hij]; exact hc, hpc⟩
      next => exact absurd h (by simp)
    next => exact absurd h (by simp)
  | recvStop j =>
    simp only [astep] at h
    split at h
    next cj heq =>
      split at h
      next hpcj hscj =>
        injection h with hX
        subst hX
        by_cases hij : j = i
        · subst hij
          rw [heq] at hc
          injection hc with hc
          subst hc
          rw [hpc] at hpcj
          exact absurd hpcj (by simp)
        · exact ⟨c, by simp only [setCaller]; rw [List.getElem?_set_ne hij]; exact hc, hpc⟩
      next => exact absurd h (by simp)
    next => exact absurd h (by simp)

/-- The four outcomes the claim allows an Ask caller to observe: the
processor's reply, the processor's error, the caller's own
cancellation/timeout, or an actor-stopped error (either the drain error
or the `Ask` select's own stop arm). -/
def ClaimedOutcome {V : Type} (procFn : Nat → Except String (Option V))
    (i : Nat) (v : Option V) (em : Option String) : Prop :=
  (em = none ∧ procFn i = .ok v) ∨
  (v = none ∧ ∃ e, em = some e ∧
    (procFn i = .error e ∨ e = drainStopMsg ∨ e = askStopMsg ∨ e = ctxDoneMsg))

/-- The outcomes the code can actually produce: the four claimed ones,
plus the success-with-nil-reply artifact `(nil, nil)` that a caller
observes when the loop closes the one-shot channels without sending
(stop or message-context race during delivery, actor.go lines 230–245)
and the caller's `case response := <-replyCh` / `case err := <-errorCh`
arm fires on the closed channel. -/
def OutcomeOk {V : Type} (procFn : Nat → Except String (Option V))
    (i : Nat) (v : Option V) (em : Option String) : Prop :=
  (em = none ∧ (procFn i = .ok v ∨ v = none)) ∨
  (v = none ∧ ∃ e, em = some e ∧
    (procFn i = .error e ∨ e = drainStopMsg ∨ e = askStopMsg ∨ e = ctxDoneMsg))

/-- Invariant of the actor model, preserved by every step from every
`askInit` state. -/
structure AInv {V : Type} (procFn : Nat → Except String (Option V)) (s : ActorSt V) : Prop where
  nodup : s.mailbox.Nodup
  mbBound : ∀ i ∈ s.mailbox, i < s.callers.length
  mbClean : ∀ i ∈ s.mailbox, ∀ c, s.callers[i]? = some c →
    c.replyBuf = none ∧ c.replyClosed = false ∧ c.errBuf = none ∧ c.errClosed = false
  delivClean : ∀ cid r, s.loopPc = .deliver cid r →
    cid < s.callers.length ∧ cid ∉ s.mailbox ∧ r = procFn cid ∧
    ∀ c, s.callers[cid]? = some c →
      c.replyBuf = none ∧ c.replyClosed = false ∧ c.errBuf = none ∧ c.errClosed = false
  exitEmpty : s.loopPc = .exited → s.mailbox = []
  joinOk : s.stopPc = .returned → s.loopPc = .exited
  stopFlag : s.stopPc ≠ .idle → s.stopClosed = true
  replyContent : ∀ i c, s.callers[i]? = some c → ∀ v, c.replyBuf = some v → procFn i = .ok v
  errContent : ∀ i c, s.callers[i]? = some c → ∀ e, c.errBuf = some e →
    procFn i = .error e ∨ e = drainStopMsg
  doneOutcome : ∀ i c, s.callers[i]? = some c → ∀ v em, c.pc = .done v em →
    OutcomeOk procFn i v em
  pendingLoc : ∀ i c, s.callers[i]? = some c → c.pc = .waiting →
    i ∈ s.mailbox ∨ (∃ r, s.loopPc = .deliver i r) ∨ c.replyBuf ≠ none ∨
    c.replyClosed = true ∨ c.errBuf ≠ none ∨ c.errClosed = true ∨
    c.ctxFired = true ∨ s.stopClosed = true

theorem set_getElem?_of_some {α : Type} {l : List α} {j : Nat} {c : α}
    (hj : l[j]? = some c) (a : α) (i : Nat) :
    (l.set j a)[i]? = if j = i then some a else l[i]? := by
  rw [List.getElem?_set]
  split
  next h => simp [getElem?_some_lt hj]
  next => rfl

theorem AInv_init {V : Type} (procFn : Nat → Except String (Option V))
    (n : Nat) (cf se : Bool) : AInv procFn (askInit V n cf se) := by
  have hcallers : (askInit V n cf se).callers = List.replicate n (initCaller V cf) := rfl
  have hmb : (askInit V n cf se).mailbox = List.range n := rfl
  have hget : ∀ (i : Nat) (c : CallerSt V),
      (askInit V n cf se).callers[i]? = some c → c = initCaller V cf := by
    intro i c hc
    rw [hcallers, List.getElem?_replicate] at hc
    split at hc
    · injection hc with hc; exact hc.symm
    · exact absurd hc (by simp)
  refine ⟨?_, ?_, ?_, ?_, ?_, ?_, ?_, ?_, ?_, ?_, ?_⟩
  · rw [hmb]; exact List.nodup_range n
  · intro i hi
    rw [hmb, List.mem_range] at hi
    rw [hcallers, List.length_replicate]
    exact hi
  · intro i _ c hc
    rw [hget i c hc]
    exact ⟨rfl, rfl, rfl, rfl⟩
  · intro cid r h
    exact absurd h (by simp [askInit])
  · intro h
    exact absurd h (by simp [askInit])
  · intro h
    exact absurd h (by simp [askInit])
  · intro h
    exact absurd h (by simp [askInit])
  · intro i c hc v hv
    rw [hget i c hc] at hv
    exact absurd hv (by simp [initCaller])
  · intro i c hc e he
    rw [hget i c hc] at he
    exact absurd he (by simp [initCaller])
  · intro i c hc v em hpc
    rw [hget i c hc] at hpc
    exact absurd hpc (by simp [initCaller])
  · intro i c hc _
    left
    rw [hmb, List.mem_range]
    have hlt := getElem?_some_lt hc
    rw [hcallers, List.length_replicate] at hlt
    exact hlt

/-- Invariant preservation for the four delivery commitments (send reply,
send error, skip on stop, skip on message-context), all of which close
the channel pair and return the loop to its main select. -/
theorem AInv_deliver_step {V : Type} {procFn : Nat → Except String (Option V)}
    {s : ActorSt V} (inv : AInv procFn s)
    (cid : Nat) (r : Except String (Option V)) (hloop : s.loopPc = .deliver cid r)
    (cj : CallerSt V) (heq : s.callers[cid]? = some cj)
    (cj' : CallerSt V)
    (hpc : cj'.pc = cj.pc) (hcfd : cj'.ctxFired = cj.ctxFired)
    (hrb : cj'.replyBuf = none ∨ ∃ v, cj'.replyBuf = some v ∧ procFn cid = .ok v)
    (heb : cj'.errBuf = none ∨
      ∃ e, cj'.errBuf = some e ∧ (procFn cid = .error e ∨ e = drainStopMsg))
    (hpend : cj'.replyBuf ≠ none ∨ cj'.replyClosed = true ∨ cj'.errBuf ≠ none ∨
      cj'.errClosed = true ∨ cj'.ctxFired = true ∨ s.stopClosed = true) :
    AInv procFn { setCaller s cid cj' with loopPc := .running } := by
  obtain ⟨hcidlt, hcidmb, hr, hbufs⟩ := inv.delivClean cid r hloop
  have hgc : ∀ (i : Nat), (s.callers.set cid cj')[i]? =
      if cid = i then some cj' else s.callers[i]? := set_getElem?_of_some heq cj'
  refine ⟨?_, ?_, ?_, ?_, ?_, ?_, ?_, ?_, ?_, ?_, ?_⟩
  · exact inv.nodup
  · intro i hi
    simpa [setCaller] using inv.mbBound i hi
  · intro i hi c hc
    dsimp only [setCaller] at hc
    rw [hgc i] at hc
    split at hc
    next hci => exact absurd (hci ▸ hi) hcidmb
    next => exact inv.mbClean i hi c hc
  · intro cid' r' h'
    exact absurd h' (by simp)
  · intro h'
    exact absurd h' (by simp)
  · intro h'
    have h2 := inv.joinOk h'
    rw [hloop] at h2
    exact absurd h2 (by simp)
  · intro h'
    exact inv.stopFlag h'
  · intro i c hc v hv
    dsimp only [setCaller] at hc
    rw [hgc i] at hc
    split at hc
    next hci =>
      injection hc with hc
      subst hc
      rcases hrb with hn | ⟨v2, hv2, hok⟩
      · rw [hn] at hv; exact absurd hv (by simp)
      · rw [hv2] at hv
        injection hv with hv
        subst hv
        exact hci ▸ hok
    next => exact inv.replyContent i c hc v hv
  · intro i c hc e he
    dsimp only [setCaller] at hc
    rw [hgc i] at hc
    split at hc
    next hci =>
      injection hc with hc
      subst hc
      rcases heb with hn | ⟨e2, he2, hok⟩
      · rw [hn] at he; exact absurd he (by simp)
      · rw [he2] at he
        injection he with he
        subst he
        exact hci ▸ hok
    next => exact inv.errContent i c hc e he
  · intro i c hc v em hdone
    dsimp only [setCaller] at hc
    rw [hgc i] at hc
    split at hc
    next hci =>
      injection hc with hc
      subst hc
      rw [hpc] at hdone
      exact hci ▸ inv.doneOutcome cid cj heq v em hdone
    next => exact inv.doneOutcome i c hc v em hdone
  · intro i c hc hwait
    dsimp only [setCaller] at hc ⊢
    rw [hgc i] at hc
    split at hc
    next hci =>
      injection hc with hc
      subst hc
      rcases hpend with h1 | h2 | h3 | h4 | h5 | h6
      · exact Or.inr (Or.inr (Or.inl h1))
      · exact Or.inr (Or.inr (Or.inr (Or.inl h2)))
      · exact Or.inr (Or.inr (Or.inr (Or.inr (Or.inl h3))))
      · exact Or.inr (Or.inr (Or.inr (Or.inr (Or.inr (Or.inl h4)))))
      · exact Or.inr (Or.inr (Or.inr (Or.inr (Or.inr (Or.inr (Or.inl h5))))))
      · exact Or.inr (Or.inr (Or.inr (Or.inr (Or.inr (Or.inr (Or.inr h6))))))
    next hci =>
      rcases inv.pendingLoc i c hc hwait with h1 | ⟨r2, h2⟩ | h3 | h4 | h5 | h6 | h7 | h8
      · exact Or.inl h1
      · rw [hloop] at h2
        injection h2 with hcid2 hr2
        exact absurd hcid2 hci
      · exact Or.inr (Or.inr (Or.inl h3))
      · exact Or.inr (Or.inr (Or.inr (Or.inl h4)))
      · exact Or.inr (Or.inr (Or.inr (Or.inr (Or.inl h5))))
      · exact Or.inr (Or.inr (Or.inr (Or.inr (Or.inr (Or.inl h6)))))
      · exact Or.inr (Or.inr (Or.inr (Or.inr (Or.inr (Or.inr (Or.inl h7))))))
      · exact Or.inr (Or.inr (Or.inr (Or.inr (Or.inr (Or.inr (Or.inr h8))))))

/-- Invariant preservation for the six caller-resolution commitments
(the arms of Ask's four-way select, with the reply/error arms split by
whether a value was buffered or the channel was found closed). -/
theorem AInv_recv_step {V : Type} {procFn : Nat → Except String (Option V)}
    {s : ActorSt V} (inv : AInv procFn s)
    (j : Nat) (cj : CallerSt V) (heq : s.callers[j]? = some cj)
    (cj' : CallerSt V) (v : Option V) (em : Option String)
    (hpc' : cj'.pc = .done v em)
    (hrb : cj'.replyBuf = none ∨ cj'.replyBuf = cj.replyBuf)
    (heb : cj'.errBuf = none ∨ cj'.errBuf = cj.errBuf)
    (hrc : cj'.replyClosed = cj.replyClosed) (hec : cj'.errClosed = cj.errClosed)
    (hout : OutcomeOk procFn j v em) :
    AInv procFn (setCaller s j cj') := by
  have hgc : ∀ (i : Nat), (s.callers.set j cj')[i]? =
      if j = i then some cj' else s.callers[i]? := set_getElem?_of_some heq cj'
  have hbufs : ∀ (h : cj.replyBuf = none ∧ cj.replyClosed = false ∧
      cj.errBuf = none ∧ cj.errClosed = false),
      cj'.replyBuf = none ∧ cj'.replyClosed = false ∧
      cj'.errBuf = none ∧ cj'.errClosed = false := by
    intro h
    refine ⟨?_, by rw [hrc]; exact h.2.1, ?_, by rw [hec]; exact h.2.2.2⟩
    · rcases hrb with h' | h'
      · exact h'
      · rw [h']; exact h.1
    · rcases heb with h' | h'
      · exact h'
      · rw [h']; exact h.2.2.1
  refine ⟨?_, ?_, ?_, ?_, ?_, ?_, ?_, ?_, ?_, ?_, ?_⟩
  · exact inv.nodup
  · intro i hi
    simpa [setCaller] using inv.mbBound i hi
  · intro i hi c hc
    dsimp only [setCaller] at hc
    rw [hgc i] at hc
    split at hc
    next hji =>
      injection hc with hc
      subst hc
      exact hbufs (inv.mbClean i hi cj (hji ▸ heq))
    next => exact inv.mbClean i hi c hc
  · intro cid r h'
    obtain ⟨hlt, hmb, hr, hb⟩ := inv.delivClean cid r h'
    refine ⟨by simpa [setCaller] using hlt, hmb, hr, ?_⟩
    intro c hc
    dsimp only [setCaller] at hc
    rw [hgc cid] at hc
    split at hc
    next hji =>
      injection hc with hc
      subst hc
      exact hbufs (hb cj (hji ▸ heq))
    next => exact hb c hc
  · intro h'
    exact inv.exitEmpty h'
  · intro h'
    exact inv.joinOk h'
  · intro h'
    exact inv.stopFlag h'
  · intro i c hc v2 hv2
    dsimp only [setCaller] at hc
    rw [hgc i] at hc
    split at hc
    next hji =>
      injection hc with hc
      subst hc
      rcases hrb with h' | h'
      · rw [h'] at hv2; exact absurd hv2 (by simp)
      · rw [h'] at hv2
        exact hji ▸ inv.replyContent j cj heq v2 hv2
    next => exact inv.replyContent i c hc v2 hv2
  · intro i c hc e he
    dsimp only [setCaller] at hc
    rw [hgc i] at hc
    split at hc
    next hji =>
      injection hc with hc
      subst hc
      rcases heb with h' | h'
      · rw [h'] at he; exact absurd he (by simp)
      · rw [h'] at he
        exact hji ▸ inv.errContent j cj heq e he
    next => exact inv.errContent i c hc e he
  · intro i c hc v2 em2 hdone
    dsimp only [setCaller] at hc
    rw [hgc i] at hc
    split at hc
    next hji =>
      injection hc with hc
      subst hc
      rw [hpc'] at hdone
      injection hdone with hv2 hem2
      subst hv2
      subst hem2
      exact hji ▸ hout
    next => exact inv.doneOutcome i c hc v2 em2 hdone
  · intro i c hc hwait
    dsimp only [setCaller] at hc ⊢
    rw [hgc i] at hc
    split at hc
    next hji =>
      injection hc with hc
      subst hc
      rw [hpc'] at hwait
      exact absurd hwait (by simp)
    next =>
      exact inv.pendingLoc i c hc hwait

/-- The invariant is preserved by every step. -/
theorem AInv_step {V : Type} {procFn : Nat → Except String (Option V)}
    {s s' : ActorSt V} {ch : AChoice} (inv : AInv procFn s)
    (h : astep procFn s ch = some s') : AInv procFn s' := by
  cases ch with
  | stopClose =>
    simp only [astep] at h
    split at h
    next hpcS hen =>
      injection h with hX
      subst hX
      refine ⟨inv.nodup, inv.mbBound, inv.mbClean, inv.delivClean, inv.exitEmpty, ?_, ?_,
        inv.replyContent, inv.errContent, inv.doneOutcome, ?_⟩
      · intro h'
        exact absurd h' (by simp)
      · intro _
        rfl
      · intro i c hc hw
        exact Or.inr (Or.inr (Or.inr (Or.inr (Or.inr (Or.inr (Or.inr rfl))))))
    next => exact absurd h (by simp)
  | stopJoin =>
    simp only [astep] at h
    split at h
    next hpcS hloopS =>
      injection h with hX
      subst hX
      refine ⟨inv.nodup, inv.mbBound, inv.mbClean, inv.delivClean, inv.exitEmpty, ?_, ?_,
        inv.replyContent, inv.errContent, inv.doneOutcome, inv.pendingLoc⟩
      · intro _
        exact hloopS
      · intro _
        exact inv.stopFlag (by rw [hpcS]; simp)
    next => exact absurd h (by simp)
  | ctxFire j =>
    simp only [astep] at h
    split at h
    next cj heq =>
      split at h
      · next hguard =>
        injection h with hX
        subst hX
        have hgc : ∀ (i : Nat), (s.callers.set j { cj with ctxFired := true })[i]? =
            if j = i then some { cj with ctxFired := true } else s.callers[i]? :=
          set_getElem?_of_some heq _
        refine ⟨inv.nodup, ?_, ?_, ?_, inv.exitEmpty, inv.joinOk, inv.stopFlag, ?_, ?_, ?_, ?_⟩
        · intro i hi
          simpa [setCaller] using inv.mbBound i hi
        · intro i hi c hc
          dsimp only [setCaller] at hc
          rw [hgc i] at hc
          split at hc
          next hji =>
            injection hc with hc
            subst hc
            exact inv.mbClean i hi cj (hji ▸ heq)
          next => exact inv.mbClean i hi c hc
        · intro cid r h'
          obtain ⟨hlt, hmb, hr, hb⟩ := inv.delivClean cid r h'
          refine ⟨by simpa [setCaller] using hlt, hmb, hr, ?_⟩
          intro c hc
          dsimp only [setCaller] at hc
          rw [hgc cid] at hc
          split at hc
          next hji =>
            injection hc with hc
            subst hc
            exact hb cj (hji ▸ heq)
          next => exact hb c hc
        · intro i c hc v hv
          dsimp only [setCaller] at hc
          rw [hgc i] at hc
          split at hc
          next hji =>
            injection hc with hc
            subst hc
            exact hji ▸ inv.replyContent j cj heq v hv
          next => exact inv.replyContent i c hc v hv
        · intro i c hc e he
          dsimp only [setCaller] at hc
          rw [hgc i] at hc
          split at hc
          next hji =>
            injection hc with hc
            subst hc
            exact hji ▸ inv.errContent j cj heq e he
          next => exact inv.errContent i c hc e he
        · intro i c hc v em hdone
          dsimp only [setCaller] at hc
          rw [hgc i] at hc
          split at hc
          next hji =>
            injection hc with hc
            subst hc
            exact hji ▸ inv.doneOutcome j cj heq v em hdone
          next => exact inv.doneOutcome i c hc v em hdone
        · intro i c hc hw
          dsimp only [setCaller] at hc ⊢
          rw [hgc i] at hc
          split at hc
          next hji =>
            injection hc with hc
            subst hc
            exact Or.inr (Or.inr (Or.inr (Or.inr (Or.inr (Or.inr (Or.inl rfl))))))
          next =>
            exact inv.pendingLoc i c hc hw
      · exact absurd h (by simp)
    next => exact absurd h (by simp)
  | loopProcess =>
    simp only [astep] at h
    split at h
    next cid rest hloopS hmbS =>
      injection h with hX
      subst hX
      have hcidmem : cid ∈ s.mailbox := by rw [hmbS]; exact List.mem_cons_self cid rest
      have hnd : cid ∉ rest := by
        have := inv.nodup
        rw [hmbS] at this
        simp [List.nodup_cons] at this
        exact this.1
      refine ⟨?_, ?_, ?_, ?_, ?_, ?_, inv.stopFlag, inv.replyContent, inv.errContent,
        inv.doneOutcome, ?_⟩
      · have := inv.nodup
        rw [hmbS] at this
        exact this.of_cons
      · intro i hi
        exact inv.mbBound i (by rw [hmbS]; exact List.mem_cons_of_mem cid hi)
      · intro i hi c hc
        exact inv.mbClean i (by rw [hmbS]; exact List.mem_cons_of_mem cid hi) c hc
      · intro cid' r' h'
        injection h' with h1 h2
        subst h1
        subst h2
        exact ⟨inv.mbBound cid hcidmem, hnd, rfl, inv.mbClean cid hcidmem⟩
      · intro h'
        exact absurd h' (by simp)
      · intro h'
        have h2 := inv.joinOk h'
        rw [hloopS] at h2
        exact absurd h2 (by simp)
      · intro i c hc hw
        rcases inv.pendingLoc i c hc hw with h1 | ⟨r2, h2⟩ | h3 | h4 | h5 | h6 | h7 | h8
        · rw [hmbS] at h1
          rcases List.mem_cons.mp h1 with h1 | h1
          · subst h1
            exact Or.inr (Or.inl ⟨procFn i, rfl⟩)
          · exact Or.inl h1
        · rw [hloopS] at h2
          exact absurd h2 (by simp)
        · exact Or.inr (Or.inr (Or.inl h3))
        · exact Or.inr (Or.inr (Or.inr (Or.inl h4)))
        · exact Or.inr (Or.inr (Or.inr (Or.inr (Or.inl h5))))
        · exact Or.inr (Or.inr (Or.inr (Or.inr (Or.inr (Or.inl h6)))))
        · exact Or.inr (Or.inr (Or.inr (Or.inr (Or.inr (Or.inr (Or.inl h7))))))
        · exact Or.inr (Or.inr (Or.inr (Or.inr (Or.inr (Or.inr (Or.inr h8))))))
    next => exact absurd h (by simp)
  | deliverSend =>
    simp only [astep] at h
    split at h
    next cid r hloop =>
      split at h
      next cj heq =>
        split at h
        next v =>
          split at h
          next hrbj hrcj =>
            injection h with hX
            subst hX
            obtain ⟨hlt, hmb, hr, hb⟩ := inv.delivClean cid _ hloop
            have hbj := hb cj heq
            exact AInv_deliver_step inv cid _ hloop cj heq _ rfl rfl
              (Or.inr ⟨v, rfl, hr.symm⟩) (Or.inl hbj.2.2.1) (Or.inr (Or.inl rfl))
          next => exact absurd h (by simp)
        next e =>
          split at h
          next hebj hecj =>
            injection h with hX
            subst hX
            obtain ⟨hlt, hmb, hr, hb⟩ := inv.delivClean cid _ hloop
            have hbj := hb cj heq
            exact AInv_deliver_step inv cid _ hloop cj heq _ rfl rfl
              (Or.inl hbj.1) (Or.inr ⟨e, rfl, Or.inl hr.symm⟩) (Or.inr (Or.inl rfl))
          next => exact absurd h (by simp)
      next => exact absurd h (by simp)
    next => exact absurd h (by simp)
  | deliverSkipStop =>
    simp only [astep] at h
    split at h
    next cid r hloop =>
      split at h
      · split at h
        next cj heq =>
          injection h with hX
          subst hX
          obtain ⟨hlt, hmb, hr, hb⟩ := inv.delivClean cid _ hloop
          have hbj := hb cj heq
          exact AInv_deliver_step inv cid _ hloop cj heq _ rfl rfl
            (Or.inl hbj.1) (Or.inl hbj.2.2.1) (Or.inr (Or.inl rfl))
        next => exact absurd h (by simp)
      · exact absurd h (by simp)
    next => exact absurd h (by simp)
  | deliverSkipCtx =>
    simp only [astep] at h
    split at h
    next cid r hloop =>
      split at h
      next cj heq =>
        split at h
        · injection h with hX
          subst hX
          obtain ⟨hlt, hmb, hr, hb⟩ := inv.delivClean cid _ hloop
          have hbj := hb cj heq
          exact AInv_deliver_step inv cid _ hloop cj heq _ rfl rfl
            (Or.inl hbj.1) (Or.inl hbj.2.2.1) (Or.inr (Or.inl rfl))
        · exact absurd h (by simp)
      next => exact absurd h (by simp)
    next => exact absurd h (by simp)
  | drainExit =>
    simp only [astep] at h
    split at h
    next hloopS =>
      split at h
      next hstop =>
        injection h with hX
        subst hX
        refine ⟨?_, ?_, ?_, ?_, ?_, ?_, ?_, ?_, ?_, ?_, ?_⟩
        · exact List.nodup_nil
        · intro i hi
          exact absurd hi (by simp)
        · intro i hi
          exact absurd hi (by simp)
        · intro cid r h'
          exact absurd h' (by simp)
        · intro _
          rfl
        · intro _
          rfl
        · intro _
          exact hstop
        · intro i c hc v hv
          rcases drainCallers_getElem s.mailbox s.callers i with hL | ⟨c0, hc0, hres⟩
          · rw [hL] at hc
            exact inv.replyContent i c hc v hv
          · rw [hres] at hc
            injection hc with hc
            subst hc
            rw [(drainOne_fields c0).2.1] at hv
            exact inv.replyContent i c0 hc0 v hv
        · intro i c hc e he
          rcases drainCallers_getElem s.mailbox s.callers i with hL | ⟨c0, hc0, hres⟩
          · rw [hL] at hc
            exact inv.errContent i c hc e he
          · rw [hres] at hc
            injection hc with hc
            subst hc
            rcases (drainOne_fields c0).2.2.2.2.2.2 with hEB | hEB
            · rw [hEB] at he
              exact inv.errContent i c0 hc0 e he
            · rw [hEB] at he
              injection he with he
              exact Or.inr he.symm
        · intro i c hc v em hdone
          rcases drainCallers_getElem s.mailbox s.callers i with hL | ⟨c0, hc0, hres⟩
          · rw [hL] at hc
            exact inv.doneOutcome i c hc v em hdone
          · rw [hres] at hc
            injection hc with hc
            subst hc
            rw [drainOne_pc] at hdone
            exact inv.doneOutcome i c0 hc0 v em hdone
        · intro i c hc hw
          exact Or.inr (Or.inr (Or.inr (Or.inr (Or.inr (Or.inr (Or.inr hstop))))))
      next => exact absurd h (by simp)
    next => exact absurd h (by simp)
  | recvReply j =>
    simp only [astep] at h
    split at h
    next cj heq =>
      split at h
      next v hwj hrbj =>
        injection h with hX
        subst hX
        exact AInv_recv_step inv j cj heq _ v none rfl (Or.inl rfl) (Or.inr rfl) rfl rfl
          (Or.inl ⟨rfl, Or.inl (inv.replyContent j cj heq v hrbj)⟩)
      next => exact absurd h (by simp)
    next => exact absurd h (by simp)
  | recvReplyClosed j =>
    simp only [astep] at h
    split at h
    next cj heq =>
      split at h
      next hwj hrbj hrcj =>
        injection h with hX
        subst hX
        exact AInv_recv_step inv j cj heq _ none none rfl (Or.inr rfl) (Or.inr rfl) rfl rfl
          (Or.inl ⟨rfl, Or.inr rfl⟩)
      next => exact absurd h (by simp)
    next => exact absurd h (by simp)
  | recvErr j =>
    simp only [astep] at h
    split at h
    next cj heq =>
      split at h
      next e hwj hebj =>
        injection h with hX
        subst hX
        refine AInv_recv_step inv j cj heq _ none (some e) rfl (Or.inr rfl) (Or.inl rfl) rfl rfl
          (Or.inr ⟨rfl, e, rfl, ?_⟩)
        rcases inv.errContent j cj heq e hebj with h' | h'
        · exact Or.inl h'
        · exact Or.inr (Or.inl h')
      next => exact absurd h (by simp)
    next => exact absurd h (by simp)
  | recvErrClosed j =>
    simp only [astep] at h
    split at h
    next cj heq =>
      split at h
      next hwj hebj hecj =>
        injection h with hX
        subst hX
        exact AInv_recv_step inv j cj heq _ none none rfl (Or.inr rfl) (Or.inr rfl) rfl rfl
          (Or.inl ⟨rfl, Or.inr rfl⟩)
      next => exact absurd h (by simp)
    next => exact absurd h (by simp)
  | recvCtx j =>
    simp only [astep] at h
    split at h
    next cj heq =>
      split at h
      next hwj hcfj =>
        injection h with hX
        subst hX
        exact AInv_recv_step inv j cj heq _ none (some ctxDoneMsg) rfl (Or.inr rfl)
          (Or.inr rfl) rfl rfl (Or.inr ⟨rfl, ctxDoneMsg, rfl, Or.inr (Or.inr (Or.inr rfl))⟩)
      next => exact absurd h (by simp)
    next => exact absurd h (by simp)
  | recvStop j =>
    simp only [astep] at h
    split at h
    next cj heq =>
      split at h
      next hwj hscj =>
        injection h with hX
        subst hX
        exact AInv_recv_step inv j cj heq _ none (some askStopMsg) rfl (Or.inr rfl)
          (Or.inr rfl) rfl rfl (Or.inr ⟨rfl, askStopMsg, rfl, Or.inr (Or.inr (Or.inl rfl))⟩)
      next => exact absurd h (by simp)
    next => exact absurd h (by simp)

theorem AInv_run {V : Type} {procFn : Nat → Except String (Option V)} :
    ∀ (tr : List AChoice) (init s : ActorSt V), AInv procFn init →
      arun procFn tr init = some s → AInv procFn s := by
  intro tr
  induction tr with
  | nil =>
    intro init s hinv h
    injection h with h
    subst h
    exact hinv
  | cons ch rest ih =>
    intro init s hinv h
    simp only [arun] at h
    cases hstep : astep procFn init ch with
    | none => rw [hstep] at h; exact absurd h (by simp)
    | some s2 =>
      rw [hstep] at h
      dsimp only at h
      exact ih s2 s (AInv_step hinv hstep) h

theorem AInv_reach {V : Type} {procFn : Nat → Except String (Option V)}
    {init s : ActorSt V} (hinv : AInv procFn init) (h : AReach procFn init s) :
    AInv procFn s := by
  obtain ⟨tr, htr⟩ := h
  exact AInv_run tr init s hinv htr

theorem astep_stopEnabled {V : Type} {procFn : Nat → Except String (Option V)}
    {s s' : ActorSt V} {ch : AChoice} (h : astep procFn s ch = some s') :
    s'.stopEnabled = s.stopEnabled := by
  cases ch <;> simp only [astep] at h <;>
    (repeat' split at h) <;>
    first
      | exact Option.noConfusion h
      | (injection h with hX; subst hX; rfl)

theorem arun_stopEnabled {V : Type} {procFn : Nat → Except String (Option V)} :
    ∀ (tr : List AChoice) (init s : ActorSt V), arun procFn tr init = some s →
      s.stopEnabled = init.stopEnabled := by
  intro tr
  induction tr with
  | nil => intro init s h; injection h with h; subst h; rfl
  | cons ch rest ih =>
    intro init s h
    simp only [arun] at h
    cases hstep : astep procFn init ch with
    | none => rw [hstep] at h; exact absurd h (by simp)
    | some s2 =>
      rw [hstep] at h
      dsimp only at h
      rw [ih s2 s h, astep_stopEnabled hstep]

/-- The finitely many scheduler choices that can possibly be enabled when
there are `n` callers. -/
def achoiceList (n : Nat) : List AChoice :=
  [.stopClose, .stopJoin, .loopProcess, .deliverSend, .deliverSkipStop,
   .deliverSkipCtx, .drainExit] ++
  (List.range n).flatMap (fun i =>
    [.ctxFire i, .recvReply i, .recvReplyClosed i, .recvErr i, .recvErrClosed i,
     .recvCtx i, .recvStop i])

/-- Terminality can be checked over the finite choice list: every choice
indexed beyond the caller list is disabled outright. -/
theorem aterminal_of_list {V : Type} (procFn : Nat → Except String (Option V))
    (s : ActorSt V)
    (h : ∀ ch ∈ achoiceList s.callers.length, astep procFn s ch = none) :
    ATerminal procFn s := by
  have hmem : ∀ (i : Nat), i < s.callers.length → ∀ c ∈ ([.ctxFire i, .recvReply i,
      .recvReplyClosed i, .recvErr i, .recvErrClosed i, .recvCtx i, .recvStop i] :
      List AChoice), c ∈ achoiceList s.callers.length := by
    intro i hi c hcm
    exact List.mem_append_right _ (List.mem_flatMap.mpr ⟨i, List.mem_range.mpr hi, hcm⟩)
  have hbig : ∀ (i : Nat), ¬ i < s.callers.length → s.callers[i]? = none := by
    intro i hi
    exact List.getElem?_eq_none (by omega)
  intro ch
  cases ch with
  | stopClose => exact h _ (by simp [achoiceList])
  | stopJoin => exact h _ (by simp [achoiceList])
  | loopProcess => exact h _ (by simp [achoiceList])
  | deliverSend => exact h _ (by simp [achoiceList])
  | deliverSkipStop => exact h _ (by simp [achoiceList])
  | deliverSkipCtx => exact h _ (by simp [achoiceList])
  | drainExit => exact h _ (by simp [achoiceList])
  | ctxFire i =>
    by_cases hi : i < s.callers.length
    · exact h _ (hmem i hi _ (by simp))
    · simp [astep, hbig i hi]
  | recvReply i =>
    by_cases hi : i < s.callers.length
    · exact h _ (hmem i hi _ (by simp))
    · simp [astep, hbig i hi]
  | recvReplyClosed i =>
    by_cases hi : i < s.callers.length
    · exact h _ (hmem i hi _ (by simp))
    · simp [astep, hbig i hi]
  | recvErr i =>
    by_cases hi : i < s.callers.length
    · exact h _ (hmem i hi _ (by simp))
    · simp [astep, hbig i hi]
  | recvErrClosed i =>
    by_cases hi : i < s.callers.length
    · exact h _ (hmem i hi _ (by simp))
    · simp [astep, hbig i hi]
  | recvCtx i =>
    by_cases hi : i < s.callers.length
    · exact h _ (hmem i hi _ (by simp))
    · simp [astep, hbig i hi]
  | recvStop i =>
    by_cases hi : i < s.callers.length
    · exact h _ (hmem i hi _ (by simp))
    · simp [astep, hbig i hi]

/-- In a terminal state satisfying the invariant, every Ask caller has
resolved: a waiting caller always leaves some task with an enabled step. -/
theorem aterminal_all_done {V : Type} {procFn : Nat → Except String (Option V)}
    {s : ActorSt V} (inv : AInv procFn s) (hterm : ATerminal procFn s) :
    ∀ (i : Nat) (c : CallerSt V), s.callers[i]? = some c →
      ∃ v em, c.pc = .done v em := by
  intro i c hc
  cases hpc : c.pc with
  | done v em => exact ⟨v, em, rfl⟩
  | waiting =>
    exfalso
    have hdeliver : ∀ (cid : Nat) (r : Except String (Option V)),
        s.loopPc = .deliver cid r → False := by
      intro cid r hloop
      obtain ⟨hlt, hmb2, hr, hb⟩ := inv.delivClean cid r hloop
      have hsome : s.callers[cid]? = some s.callers[cid] := List.getElem?_eq_getElem hlt
      have hbufs := hb _ hsome
      have hth := hterm .deliverSend
      cases r with
      | ok v =>
        simp [astep, hloop, hsome, hbufs.1, hbufs.2.1] at hth
      | error e =>
        simp [astep, hloop, hsome, hbufs.2.2.1, hbufs.2.2.2] at hth
    rcases inv.pendingLoc i c hc hpc with h1 | ⟨r, h2⟩ | h3 | h4 | h5 | h6 | h7 | h8
    · cases hloop : s.loopPc with
      | running =>
        cases hmb : s.mailbox with
        | nil => rw [hmb] at h1; simp at h1
        | cons cid rest =>
          have hth := hterm .loopProcess
          simp [astep, hloop, hmb] at hth
      | deliver cid r => exact hdeliver cid r hloop
      | exited =>
        rw [inv.exitEmpty hloop] at h1
        simp at h1
    · exact hdeliver i r h2
    · obtain ⟨v, hv⟩ := Option.ne_none_iff_exists'.mp h3
      have hth := hterm (.recvReply i)
      simp [astep, hc, hpc, hv] at hth
    · cases hrb : c.replyBuf with
      | some v =>
        have hth := hterm (.recvReply i)
        simp [astep, hc, hpc, hrb] at hth
      | none =>
        have hth := hterm (.recvReplyClosed i)
        simp [astep, hc, hpc, hrb, h4] at hth
    · obtain ⟨e, he⟩ := Option.ne_none_iff_exists'.mp h5
      have hth := hterm (.recvErr i)
      simp [astep, hc, hpc, he] at hth
    · cases heb : c.errBuf with
      | some e =>
        have hth := hterm (.recvErr i)
        simp [astep, hc, hpc, heb] at hth
      | none =>
        have hth := hterm (.recvErrClosed i)
        simp [astep, hc, hpc, heb, h6] at hth
    · have hth := hterm (.recvCtx i)
      simp [astep, hc, hpc, h7] at hth
    · have hth := hterm (.recvStop i)
      simp [astep, hc, hpc, h8] at hth

/-- In a terminal state of a scenario where `Stop()` is eventually called,
`Stop()` has returned (and hence, by the invariant, the loop has exited). -/
theorem aterminal_stop_returned {V : Type} {procFn : Nat → Except String (Option V)}
    {s : ActorSt V} (inv : AInv procFn s) (hterm : ATerminal procFn s)
    (hen : s.stopEnabled = true) : s.stopPc = .returned := by
  cases hpcS : s.stopPc with
  | returned => rfl
  | idle =>
    exfalso
    have hth := hterm .stopClose
    simp [astep, hpcS, hen] at hth
  | waitingJoin =>
    exfalso
    have hclosed : s.stopClosed = true := inv.stopFlag (by rw [hpcS]; simp)
    cases hloop : s.loopPc with
    | exited =>
      have hth := hterm .stopJoin
      simp [astep, hpcS, hloop] at hth
    | running =>
      cases hmb : s.mailbox with
      | nil =>
        have hth := hterm .drainExit
        simp [astep, hloop, hclosed] at hth
      | cons cid rest =>
        have hth := hterm .loopProcess
        simp [astep, hloop, hmb] at hth
    | deliver cid r =>
      obtain ⟨hlt, hmb2, hr, hb⟩ := inv.delivClean cid r hloop
      have hsome : s.callers[cid]? = some s.callers[cid] := List.getElem?_eq_getElem hlt
      have hbufs := hb _ hsome
      have hth := hterm .deliverSend
      cases r with
      | ok v => simp [astep, hloop, hsome, hbufs.1, hbufs.2.1] at hth
      | error e => simp [astep, hloop, hsome, hbufs.2.2.1, hbufs.2.2.2] at hth

/-! ## Claim theorems -/

/-- **C1** (amended).  Frame codec round-trip: encoding a request frame
(total length, method-name length, method name, payload length, payload;
all 4-byte big-endian signed integers) and decoding the resulting byte
sequence yields exactly the original (method, payload) — and likewise for
response frames with (errorString, payload), a zero-length payload
decoding to the zero-length byte sequence — provided the whole frame fits
the signed-32-bit total-length field: `8 + |method| + |payload| ≤ 2^31−1`
(resp. `8 + |errString| + |payload| ≤ 2^31−1`).  The claim's weaker
premise (each length fits int32 on its own) admits counterexamples where
`int32(buffer.Len())` overflows; see `C1_counterexample`. -/
theorem C1_frame_roundtrip (method payload errStr : Bytes)
    (hreq : 8 + method.length + payload.length ≤ 2147483647)
    (hres : 8 + errStr.length + payload.length ≤ 2147483647) :
    DecodeRequest (EncodeRequest method payload) = DecodeResult.ok (method, payload) ∧
    DecodeResponse (EncodeResponse errStr payload) = DecodeResult.ok (errStr, payload) :=
  ⟨DecodeRequest_EncodeRequest method payload hreq,
   DecodeResponse_EncodeResponse errStr payload hres⟩

/-- **C1** witness: the round trip at method `"Ping"` with a zero-length
payload, and a response frame with error string `"boom"` and zero-length
payload. -/
theorem C1_frame_roundtrip_witness :
    DecodeRequest (EncodeRequest [80, 105, 110, 103] []) =
      DecodeResult.ok ([80, 105, 110, 103], []) ∧
    DecodeResponse (EncodeResponse [98, 111, 111, 109] []) =
      DecodeResult.ok ([98, 111, 111, 109], []) :=
  C1_frame_roundtrip [80, 105, 110, 103] [] [98, 111, 111, 109] (by decide) (by decide)

/-- **C1** counterexample: a method name of length `2^31 − 1` (which fits
a signed 32-bit integer, as the claim requires) with an empty payload.
The request body is then `2^31 + 7` bytes long, `int32(buffer.Len())`
wraps to the negative value `−2147483641`, and the decoder rejects the
frame as a protocol violation instead of returning the original pair. -/
theorem C1_counterexample :
    (List.replicate 2147483647 0 : Bytes).length ≤ 2147483647 ∧
    ([] : Bytes).length ≤ 2147483647 ∧
    DecodeRequest (EncodeRequest (List.replicate 2147483647 0) []) ≠
      DecodeResult.ok (List.replicate 2147483647 0, []) := by
  refine ⟨by rw [List.length_replicate], by rw [List.length_nil]; omega, ?_⟩
  have hlen : (encodeRequestBody (List.replicate 2147483647 0) []).length = 2147483655 := by
    rw [encodeRequestBody_length, List.length_replicate, List.length_nil]
  have hconn : DecodeRequest (EncodeRequest (List.replicate 2147483647 0) []) =
      DecodeResult.connErr := by
    unfold EncodeRequest DecodeRequest
    rw [readInt32_be32]
    dsimp only
    rw [hlen, i32_neg_of_high 2147483655 (by norm_num) (by norm_num)]
    rw [if_pos (by norm_num)]
  rw [hconn]
  intro hcontra
  exact DecodeResult.noConfusion hcontra

/-- **C2**: the spec claims an invalid or negative length field is fatal
only to the current connection, handled by an error return, and that
decoding never panics.  The code does contain a non-positive
*total*-length field and an over-long inner length field as connection
errors, but a *negative inner* length field (method-name, error-string or
payload length) reaches `make([]byte, n)` with `n < 0`, a Go runtime
panic (`makeslice: len out of range`) on the connection goroutine with no
`recover` — which crashes the whole process, not just the connection.
The conjuncts evaluate the decoder at: the failing input (a well-framed
request whose method-name length is `−1`), the client-side analogue, a
negative total length, a zero total length, and an inner length
exceeding the remaining frame bytes. -/
theorem C2_decode_panic_on_negative_inner_length :
    DecodeRequest [0, 0, 0, 4, 255, 255, 255, 255] = DecodeResult.panicked ∧
    decodeResponseBody [255, 255, 255, 255] = DecodeResult.panicked ∧
    DecodeRequest [255, 255, 255, 252] = DecodeResult.connErr ∧
    DecodeRequest [0, 0, 0, 0] = DecodeResult.connErr ∧
    DecodeRequest [0, 0, 0, 5, 0, 0, 0, 20, 65] = DecodeResult.connErr := by
  decide

/-- Supporting lemma for C2: the containment behaviour the claim
describes does hold for every frame whose length fields are
non-negative — decoding then never panics. -/
theorem decode_no_panic_of_nonneg (frame : Bytes)
    (h1 : ∀ (L : Int) (rest : Bytes), readInt32 frame = some (L, rest) → 0 ≤ L)
    (h2 : ∀ (L : Int) (rest : Bytes) (L2 : Int) (rest2 : Bytes),
      readInt32 frame = some (L, rest) → readInt32 (rest.drop L.toNat) = some (L2, rest2) →
      0 ≤ L2) :
    decodeRequestBody frame ≠ DecodeResult.panicked ∧
    decodeResponseBody frame ≠ DecodeResult.panicked := by
  constructor
  · unfold decodeRequestBody
    cases hr : readInt32 frame with
    | none => simp
    | some p =>
      obtain ⟨L, rest⟩ := p
      have hL := h1 L rest hr
      dsimp only
      rw [if_neg (by omega)]
      split
      · simp
      · cases hr2 : readInt32 (rest.drop L.toNat) with
        | none => simp
        | some p2 =>
          obtain ⟨L2, rest2⟩ := p2
          have hL2 := h2 L rest L2 rest2 hr hr2
          dsimp only
          rw [if_neg (by omega)]
          split <;> simp
  · unfold decodeResponseBody
    cases hr : readInt32 frame with
    | none => simp
    | some p =>
      obtain ⟨L, rest⟩ := p
      have hL := h1 L rest hr
      dsimp only
      rw [if_neg (by omega)]
      split
      · simp
      · cases hr2 : readInt32 (rest.drop L.toNat) with
        | none => simp
        | some p2 =>
          obtain ⟨L2, rest2⟩ := p2
          have hL2 := h2 L rest L2 rest2 hr hr2
          dsimp only
          rw [if_neg (by omega)]
          split <;> simp

/-- **C3**.  Method-not-found dispatch: a request frame whose method name
has no registered handler invokes nothing (the `none` branch of the
lookup builds the response without touching any handler); the server
writes back a response frame whose error string is exactly
`"no coordinator found for method: <name>"` and whose payload length is
0, the connection stays open, and the loop continues reading the
subsequent requests on the same stream. -/
theorem C3_method_not_found (t : HandlerTable) (method payload rest : Bytes)
    (hnone : lookupHandler t method = none)
    (hfit : 8 + method.length + payload.length ≤ 2147483647) :
    serverStep t (EncodeRequest method payload ++ rest) =
      ServerStep.reply (EncodeResponse (noCoordPrefix ++ method) []) rest ∧
    ∀ fuel, serverRun t (fuel + 1) (EncodeRequest method payload ++ rest) =
      EncodeResponse (noCoordPrefix ++ method) [] :: serverRun t fuel rest := by
  have hB : (encodeRequestBody method payload).length < 2147483648 := by
    rw [encodeRequestBody_length]; omega
  have hstep : serverStep t (EncodeRequest method payload ++ rest) =
      ServerStep.reply (EncodeResponse (noCoordPrefix ++ method) []) rest := by
    have hshape : EncodeRequest method payload ++ rest =
        be32 (encodeRequestBody method payload).length ++
          (encodeRequestBody method payload ++ rest) := by
      simp [EncodeRequest, List.append_assoc]
    rw [hshape]
    unfold serverStep
    rw [readInt32_be32, i32_of_small _ hB]
    dsimp only
    rw [if_neg (by rw [encodeRequestBody_length]; omega :
          ¬ (((encodeRequestBody method payload).length : Int) ≤ 0))]
    rw [Int.toNat_natCast]
    rw [if_neg (by simp [List.length_append])]
    rw [List.take_left, List.drop_left]
    rw [decodeRequestBody_encode method payload (by omega) (by omega)]
    dsimp only
    simp [dispatch, hnone]
  refine ⟨hstep, ?_⟩
  intro fuel
  simp only [serverRun, hstep]

/-- **C3** witness: an empty handler table, method `"Nope"`, payload
`[1]`, followed by four further bytes of stream. -/
theorem C3_method_not_found_witness :
    serverStep [] (EncodeRequest [78, 111, 112, 101] [1] ++ [9, 9, 9, 9]) =
      ServerStep.reply (EncodeResponse (noCoordPrefix ++ [78, 111, 112, 101]) []) [9, 9, 9, 9] ∧
    ∀ fuel, serverRun [] (fuel + 1) (EncodeRequest [78, 111, 112, 101] [1] ++ [9, 9, 9, 9]) =
      EncodeResponse (noCoordPrefix ++ [78, 111, 112, 101]) [] ::
        serverRun [] fuel [9, 9, 9, 9] :=
  C3_method_not_found [] [78, 111, 112, 101] [1] [9, 9, 9, 9] rfl (by decide)

/-- **C4**.  Application-error preserves the connection: when the request
was sent and a well-formed response frame with a non-empty error string
was received, `Call` returns the error
`"RPC call to method '<m>' on service '<s>' at '<addr>' failed: <err>"`
— whose text contains the service name, method name, resolved target
address, and the server's error string — while `connHealthy` stays true,
so the deferred cleanup returns the connection to the endpoint's pool
(closing it only when the pool is already at `maxConnsPerEndpoint`
capacity), never discarding it as broken. -/
theorem C4_app_error_keeps_connection (serviceName methodName targetAddr errStr payload : Bytes)
    {α : Type} (responseProto : α) (unmarshal : Bytes → α → Option α)
    (poolSize maxConns : Nat)
    (herr : errStr ≠ [])
    (hfit : 8 + errStr.length + payload.length ≤ 2147483647) :
    (clientCall ⟨none, none, .ok ((8 + errStr.length + payload.length : Nat) : Int),
        .ok (encodeResponseBody errStr payload)⟩
        serviceName methodName targetAddr responseProto unmarshal) =
      ⟨.err (appFailMsg methodName serviceName targetAddr errStr), true⟩ ∧
    hasSegment serviceName (appFailMsg methodName serviceName targetAddr errStr) ∧
    hasSegment methodName (appFailMsg methodName serviceName targetAddr errStr) ∧
    hasSegment targetAddr (appFailMsg methodName serviceName targetAddr errStr) ∧
    hasSegment errStr (appFailMsg methodName serviceName targetAddr errStr) ∧
    connFate true poolSize maxConns =
      (if poolSize < maxConns then ConnFate.pooled else ConnFate.closedSurplus) ∧
    connFate true poolSize maxConns ≠ ConnFate.closedBroken := by
  refine ⟨?_, ?_, ?_, ?_, ?_, ?_, ?_⟩
  · unfold clientCall
    dsimp only
    rw [if_neg (by push_cast; omega : ¬ (((8 + errStr.length + payload.length : Nat) : Int) ≤ 0))]
    rw [decodeResponseBody_encode errStr payload (by omega) (by omega)]
    dsimp only
    rw [if_pos herr]
  · exact ⟨appErrA ++ methodName ++ appErrB, appErrC ++ targetAddr ++ appErrD ++ errStr,
      by simp [appFailMsg, List.append_assoc]⟩
  · exact ⟨appErrA, appErrB ++ serviceName ++ appErrC ++ targetAddr ++ appErrD ++ errStr,
      by simp [appFailMsg, List.append_assoc]⟩
  · exact ⟨appErrA ++ methodName ++ appErrB ++ serviceName ++ appErrC,
      appErrD ++ errStr, by simp [appFailMsg, List.append_assoc]⟩
  · exact ⟨appErrA ++ methodName ++ appErrB ++ serviceName ++ appErrC ++ targetAddr ++ appErrD,
      [], by simp [appFailMsg, List.append_assoc]⟩
  · unfold connFate returnConnection
    simp
  · unfold connFate returnConnection
    by_cases hp : poolSize < maxConns
    · simp [hp]
    · simp [hp]

/-- **C4** witness: service `"svc"`, method `"m"`, address `"a:1"`,
server error `"boom"`, empty payload, pool of capacity 10 currently
holding 0 idle connections. -/
theorem C4_app_error_keeps_connection_witness :
    (clientCall ⟨none, none, .ok ((8 + (4 : Nat) + (0 : Nat) : Nat) : Int),
        .ok (encodeResponseBody [98, 111, 111, 109] [])⟩
        [115, 118, 99] [109] [97, 58, 49] (42 : Nat) (fun _ _ => none)) =
      ⟨.err (appFailMsg [109] [115, 118, 99] [97, 58, 49] [98, 111, 111, 109]), true⟩ ∧
    hasSegment [115, 118, 99] (appFailMsg [109] [115, 118, 99] [97, 58, 49] [98, 111, 111, 109]) ∧
    connFate true 0 10 = ConnFate.pooled := by
  have h := C4_app_error_keeps_connection [115, 118, 99] [109] [97, 58, 49]
    [98, 111, 111, 109] [] (42 : Nat) (fun _ _ => none) 0 10 (by decide) (by decide)
  exact ⟨h.1, h.2.1, by simpa using h.2.2.2.2.2.1⟩

/-- **C5**.  I/O-failure disposal: if writing the request frame (either
the 4-byte length prefix or the frame itself) or reading the response
frame (its length prefix or its data) fails with an I/O error, the
connection is marked unhealthy (`connHealthy = false`), so the deferred
cleanup closes it instead of returning it to the pool, and the error
returned to the caller carries the phase-specific message — containing
`"failed to send request"` for the send phase or `"response"` read
wording for the receive phase — together with the target address and the
method name. -/
theorem C5_io_failure_disposal (serviceName methodName targetAddr cause : Bytes)
    {α : Type} (responseProto : α) (unmarshal : Bytes → α → Option α)
    (poolSize maxConns : Nat) (w : Wire) (totalLen : Int) :
    (w.sendLenErr = some cause →
      clientCall w serviceName methodName targetAddr responseProto unmarshal =
        ⟨.err (sendLenErrMsg methodName targetAddr cause), false⟩ ∧
      hasSegment sendPhaseMark (sendLenErrMsg methodName targetAddr cause) ∧
      hasSegment methodName (sendLenErrMsg methodName targetAddr cause) ∧
      hasSegment targetAddr (sendLenErrMsg methodName targetAddr cause)) ∧
    (w.sendLenErr = none → w.sendFrameErr = some cause →
      clientCall w serviceName methodName targetAddr responseProto unmarshal =
        ⟨.err (sendFrameErrMsg methodName targetAddr cause), false⟩ ∧
      hasSegment sendPhaseMark (sendFrameErrMsg methodName targetAddr cause) ∧
      hasSegment methodName (sendFrameErrMsg methodName targetAddr cause) ∧
      hasSegment targetAddr (sendFrameErrMsg methodName targetAddr cause)) ∧
    (w.sendLenErr = none → w.sendFrameErr = none → w.recvLen = .eofErr cause →
      clientCall w serviceName methodName targetAddr responseProto unmarshal =
        ⟨.err (recvLenEofErrMsg targetAddr methodName cause), false⟩ ∧
      hasSegment respMark (recvLenEofErrMsg targetAddr methodName cause) ∧
      hasSegment methodName (recvLenEofErrMsg targetAddr methodName cause) ∧
      hasSegment targetAddr (recvLenEofErrMsg targetAddr methodName cause)) ∧
    (w.sendLenErr = none → w.sendFrameErr = none → w.recvLen = .ioErr cause →
      clientCall w serviceName methodName targetAddr responseProto unmarshal =
        ⟨.err (recvLenErrMsg targetAddr methodName cause), false⟩ ∧
      hasSegment respMark (recvLenErrMsg targetAddr methodName cause) ∧
      hasSegment methodName (recvLenErrMsg targetAddr methodName cause) ∧
      hasSegment targetAddr (recvLenErrMsg targetAddr methodName cause)) ∧
    (w.sendLenErr = none → w.sendFrameErr = none → w.recvLen = .ok totalLen → 0 < totalLen →
      w.recvFrame = .ioErr cause →
      clientCall w serviceName methodName targetAddr responseProto unmarshal =
        ⟨.err (recvFrameErrMsg targetAddr methodName cause), false⟩ ∧
      hasSegment respMark (recvFrameErrMsg targetAddr methodName cause) ∧
      hasSegment methodName (recvFrameErrMsg targetAddr methodName cause) ∧
      hasSegment targetAddr (recvFrameErrMsg targetAddr methodName cause)) ∧
    connFate false poolSize maxConns = ConnFate.closedBroken := by
  obtain ⟨sl, sf, rl, rf⟩ := w
  refine ⟨?_, ?_, ?_, ?_, ?_, rfl⟩
  · intro h1
    dsimp only at h1
    subst h1
    refine ⟨rfl, ?_, ?_, ?_⟩
    · exact ⟨rpccPrefix, lenForMethodSep ++ methodName ++ toSep ++ targetAddr ++
        colonSep ++ cause, by simp [sendLenErrMsg, List.append_assoc]⟩
    · exact ⟨rpccPrefix ++ sendPhaseMark ++ lenForMethodSep, toSep ++ targetAddr ++
        colonSep ++ cause, by simp [sendLenErrMsg, List.append_assoc]⟩
    · exact ⟨rpccPrefix ++ sendPhaseMark ++ lenForMethodSep ++ methodName ++ toSep,
        colonSep ++ cause, by simp [sendLenErrMsg, List.append_assoc]⟩
  · intro h1 h2
    dsimp only at h1 h2
    subst h1
    subst h2
    refine ⟨rfl, ?_, ?_, ?_⟩
    · exact ⟨rpccPrefix, frameForMethodSep ++ methodName ++ toSep ++ targetAddr ++
        colonSep ++ cause, by simp [sendFrameErrMsg, List.append_assoc]⟩
    · exact ⟨rpccPrefix ++ sendPhaseMark ++ frameForMethodSep, toSep ++ targetAddr ++
        colonSep ++ cause, by simp [sendFrameErrMsg, List.append_assoc]⟩
    · exact ⟨rpccPrefix ++ sendPhaseMark ++ frameForMethodSep ++ methodName ++ toSep,
        colonSep ++ cause, by simp [sendFrameErrMsg, List.append_assoc]⟩
  · intro h1 h2 h3
    dsimp only at h1 h2 h3
    subst h1
    subst h2
    subst h3
    refine ⟨rfl, ?_, ?_, ?_⟩
    · exact ⟨rpccPrefix ++ connClosedByMark ++ targetAddr ++ whileReadingSep,
        lenForMethodSep ++ methodName ++ colonSep ++ cause,
        by simp [recvLenEofErrMsg, List.append_assoc]⟩
    · exact ⟨rpccPrefix ++ connClosedByMark ++ targetAddr ++ whileReadingSep ++ respMark ++
        lenForMethodSep, colonSep ++ cause, by simp [recvLenEofErrMsg, List.append_assoc]⟩
    · exact ⟨rpccPrefix ++ connClosedByMark, whileReadingSep ++ respMark ++
        lenForMethodSep ++ methodName ++ colonSep ++ cause,
        by simp [recvLenEofErrMsg, List.append_assoc]⟩
  · intro h1 h2 h3
    dsimp only at h1 h2 h3
    subst h1
    subst h2
    subst h3
    refine ⟨rfl, ?_, ?_, ?_⟩
    · exact ⟨rpccPrefix ++ readFailMark, lenFromSep ++ targetAddr ++ forMethodSep ++
        methodName ++ colonSep ++ cause, by simp [recvLenErrMsg, List.append_assoc]⟩
    · exact ⟨rpccPrefix ++ readFailMark ++ respMark ++ lenFromSep ++ targetAddr ++
        forMethodSep, colonSep ++ cause, by simp [recvLenErrMsg, List.append_assoc]⟩
    · exact ⟨rpccPrefix ++ readFailMark ++ respMark ++ lenFromSep,
        forMethodSep ++ methodName ++ colonSep ++ cause,
        by simp [recvLenErrMsg, List.append_assoc]⟩
  · intro h1 h2 h3 h4 h5
    dsimp only at h1 h2 h3 h5
    subst h1
    subst h2
    subst h3
    subst h5
    refine ⟨?_, ?_, ?_, ?_⟩
    · unfold clientCall
      dsimp only
      rw [if_neg (by omega)]
    · exact ⟨rpccPrefix ++ readFailMark, frameDataFromSep ++ targetAddr ++ forMethodSep ++
        methodName ++ colonSep ++ cause, by simp [recvFrameErrMsg, List.append_assoc]⟩
    · exact ⟨rpccPrefix ++ readFailMark ++ respMark ++ frameDataFromSep ++ targetAddr ++
        forMethodSep, colonSep ++ cause, by simp [recvFrameErrMsg, List.append_assoc]⟩
    · exact ⟨rpccPrefix ++ readFailMark ++ respMark ++ frameDataFromSep,
        forMethodSep ++ methodName ++ colonSep ++ cause,
        by simp [recvFrameErrMsg, List.append_assoc]⟩

/-- **C5** witness: a send failure of the length prefix (`cause`
`"broken pipe"`) on a concrete call, and the resulting disposal. -/
theorem C5_io_failure_disposal_witness :
    clientCall ⟨some [98, 114, 111, 107, 101, 110], none, .ok 1, .ok []⟩
        [115, 118, 99] [109] [97, 58, 49] (42 : Nat) (fun _ _ => none) =
      ⟨.err (sendLenErrMsg [109] [97, 58, 49] [98, 114, 111, 107, 101, 110]), false⟩ ∧
    hasSegment sendPhaseMark (sendLenErrMsg [109] [97, 58, 49] [98, 114, 111, 107, 101, 110]) ∧
    connFate false 0 10 = ConnFate.closedBroken := by
  have h := C5_io_failure_disposal [115, 118, 99] [109] [97, 58, 49]
    [98, 114, 111, 107, 101, 110] (42 : Nat) (fun _ _ => none) 0 10
    ⟨some [98, 114, 111, 107, 101, 110], none, .ok 1, .ok []⟩ 1
  have h1 := h.1 rfl
  exact ⟨h1.1, h1.2.1, h.2.2.2.2.2⟩

/-- **C9**.  Round-robin selection: for a sequence of discovery-based
Calls (service name not a literal `host:port`, non-empty instance list),
the endpoint chosen on each call is `instances[c % len(instances)]` where
`c` is the per-service-name counter — starting at 0, incremented by
exactly one on each such call, persisting for the client's lifetime and
never reset when the instance count changes (so the starting offset
drifts).  `rrSpecChosen` is that selection rule written in the claim's
own words; the counter is a `uint64`, so sequences are bounded by `2^64`
calls. -/
theorem C9_round_robin (calls : List (Bytes × Nat))
    (hlen : calls.length ≤ 18446744073709551616) :
    (rrRun rrInit calls).1 = rrSpecChosen (fun _ => 0) calls :=
  rrRun_eq_spec calls rrInit (fun _ => 0) (fun _ => rfl) (fun _ => by simpa using hlen)

/-- **C9** witness: service `a` seen with 3 instances, then 2, then 3
again, interleaved with service `b` — the counter keeps increasing across
the instance-count change. -/
theorem C9_round_robin_witness :
    (rrRun rrInit [([97], 3), ([97], 3), ([98], 2), ([97], 2), ([97], 3), ([98], 2)]).1 =
      rrSpecChosen (fun _ => 0)
        [([97], 3), ([97], 3), ([98], 2), ([97], 2), ([97], 3), ([98], 2)] :=
  C9_round_robin [([97], 3), ([97], 3), ([98], 2), ([97], 2), ([97], 3), ([98], 2)]
    (by decide)

/-- **C10** (implicit).  Empty-payload success leaves the response object
untouched: on a well-formed response frame with empty error string and
payload length 0, `Call` returns nil and performs no unmarshalling — for
every possible `unmarshal` function, the caller-supplied `responseProto`
value is returned exactly as passed in, and the connection stays
healthy. -/
theorem C10_empty_payload_untouched (serviceName methodName targetAddr : Bytes)
    {α : Type} (responseProto : α) (unmarshal : Bytes → α → Option α) :
    clientCall ⟨none, none, .ok 8, .ok (encodeResponseBody [] [])⟩
        serviceName methodName targetAddr responseProto unmarshal =
      ⟨.ok responseProto, true⟩ := by
  unfold clientCall
  dsimp only
  rw [if_neg (by omega)]
  rw [decodeResponseBody_encode [] [] (by simp) (by simp)]
  dsimp only
  rw [if_neg (by simp)]
  rw [if_neg (by simp)]

/-- **C7**.  Tell backpressure: on a running actor, `Tell` never blocks —
the doubled non-blocking select falls through to `default`; with the
mailbox already at its capacity it returns the `"actor mailbox is full"`
error immediately, leaving the mailbox untouched (no drop, no growth
past the bound), while with free space it enqueues the message at the
back and returns nil. -/
theorem C7_tell_backpressure {M : Type} (mailbox : List M) (size : Nat) (m : M) :
    (mailbox.length = size →
      tellRunning mailbox size (some m) = TellResult.errMailboxFull ∧
      tellErrText (tellRunning mailbox size (some m)) = some "actor mailbox is full") ∧
    (mailbox.length < size →
      tellRunning mailbox size (some m) = TellResult.enqueued (mailbox ++ [m]) ∧
      tellErrText (tellRunning mailbox size (some m)) = none) := by
  constructor
  · intro hfull
    have hnot : ¬ (mailbox.length < size) := by omega
    simp [tellRunning, hnot, tellErrText]
  · intro hfree
    simp [tellRunning, hfree, tellErrText]

/-- **C7** witness: a mailbox of capacity 2 holding two undrained
messages rejects a third `Tell` with the mailbox-full error; the same
mailbox under capacity 3 enqueues it. -/
theorem C7_tell_backpressure_witness :
    (tellRunning [1, 2] 2 (some 3) = TellResult.errMailboxFull ∧
      tellErrText (tellRunning [1, 2] 2 (some 3)) = some "actor mailbox is full") ∧
    (tellRunning [1, 2] 3 (some 3) = TellResult.enqueued [1, 2, 3] ∧
      tellErrText (tellRunning [1, 2] 3 (some 3)) = none) :=
  ⟨(C7_tell_backpressure [1, 2] 2 3).1 rfl, (C7_tell_backpressure [1, 2] 3 3).2 (by decide)⟩

/-- The processor used by the concrete actor scenarios: every message is
answered with the reply `7`. -/
def procSeven : Nat → Except String (Option Nat) := fun _ => Except.ok (some 7)

/-- **C6** (amended).  Exactly-one Ask outcome: for every state reachable
from a scenario in which `n` Ask calls have successfully enqueued their
messages, (1) a resolved caller's outcome never changes — no second
delivery, even in stop/cancellation races; (2) all executions are finite
(every step strictly decreases a measure), so the caller cannot be
starved forever, and (3) in any maximal (terminal) state every Ask caller
has resolved — never zero outcomes; (4) each observed outcome is the
processor's reply, the processor's error, the caller's context firing,
an actor-stopped error — or, beyond the claim's list, the `(nil, nil)`
success artifact produced when the loop's delivery select is preempted by
`stopCh`/context and the caller then reads the closed one-shot channels
(see `C6_counterexample`). -/
theorem C6_ask_exactly_one_outcome {V : Type} (procFn : Nat → Except String (Option V))
    (n : Nat) (cf se : Bool) (s : ActorSt V)
    (hreach : AReach procFn (askInit V n cf se) s) :
    (∀ (ch : AChoice) (s' : ActorSt V), astep procFn s ch = some s' →
      ∀ (i : Nat) (c : CallerSt V) (v : Option V) (em : Option String),
        s.callers[i]? = some c → c.pc = .done v em →
        ∃ c', s'.callers[i]? = some c' ∧ c'.pc = .done v em) ∧
    (∀ (tr : List AChoice) (s' : ActorSt V), arun procFn tr s = some s' →
      tr.length ≤ ameasure s) ∧
    (ATerminal procFn s → ∀ (i : Nat) (c : CallerSt V), s.callers[i]? = some c →
      ∃ v em, c.pc = .done v em) ∧
    (∀ (i : Nat) (c : CallerSt V) (v : Option V) (em : Option String),
      s.callers[i]? = some c → c.pc = .done v em → OutcomeOk procFn i v em) := by
  have inv := AInv_reach (AInv_init procFn n cf se) hreach
  refine ⟨?_, ?_, ?_, ?_⟩
  · intro ch s' h i c v em hc hpc
    exact astep_done_absorbing procFn s s' ch h i c v em hc hpc
  · intro tr s' h
    have := arun_length_le procFn tr s s' h
    omega
  · intro hterm i c hc
    exact aterminal_all_done inv hterm i c hc
  · intro i c v em hc hpc
    exact inv.doneOutcome i c hc v em hpc

/-- Terminal state of the undisturbed single-Ask run: the message is
processed, the reply delivered and received. -/
def c6FinalSt : ActorSt Nat :=
  { mailbox := [], mailboxClosed := false, stopClosed := false, stopEnabled := false,
    stopPc := .idle, loopPc := .running,
    callers := [⟨.done (some 7) none, none, true, none, true, false, false⟩] }

/-- **C6** witness: the concrete single-Ask scenario run to its terminal
state; the theorem yields that the caller has resolved. -/
theorem C6_ask_exactly_one_outcome_witness :
    ∃ v em, ∃ c : CallerSt Nat, c6FinalSt.callers[0]? = some c ∧
      c.pc = CallerPc.done v em := by
  have hreach : AReach procSeven (askInit Nat 1 false false) c6FinalSt :=
    ⟨[.loopProcess, .deliverSend, .recvReply 0], by decide⟩
  have h := C6_ask_exactly_one_outcome procSeven 1 false false c6FinalSt hreach
  have hterm : ATerminal procSeven c6FinalSt :=
    aterminal_of_list procSeven c6FinalSt (by decide)
  cases hc : c6FinalSt.callers[0]? with
  | none => exact absurd hc (by decide)
  | some c =>
    obtain ⟨v, em, hpc⟩ := h.2.2.1 hterm 0 c hc
    exact ⟨v, em, c, rfl, hpc⟩

/-- State reached in the stop-during-delivery race: `Stop()` fires, the
loop (whose main select saw both arms ready) nevertheless dequeues the
Ask and processes it, the delivery select then takes the `stopCh` arm and
closes the channel pair without sending, and the caller's reply arm reads
the closed channel. -/
def c6RaceSt : ActorSt Nat :=
  { mailbox := [], mailboxClosed := false, stopClosed := true, stopEnabled := true,
    stopPc := .waitingJoin, loopPc := .running,
    callers := [⟨.done none none, none, true, none, true, false, false⟩] }

/-- **C6** counterexample: in the race above the caller observes
`(nil, nil)` — a successful return carrying neither the processor's reply
(`some 7`) nor any error — which is none of the claim's four outcomes. -/
theorem C6_counterexample :
    AReach procSeven (askInit Nat 1 false true) c6RaceSt ∧
    c6RaceSt.callers[0]? =
      some ⟨CallerPc.done none none, none, true, none, true, false, false⟩ ∧
    ¬ ClaimedOutcome procSeven 0 (none : Option Nat) (none : Option String) := by
  refine ⟨⟨[.stopClose, .loopProcess, .deliverSkipStop, .recvReplyClosed 0], by decide⟩,
    by decide, ?_⟩
  intro h
  rcases h with ⟨hem, hok⟩ | ⟨hv, e, hem, hrest⟩
  · simp [procSeven] at hok
  · exact Option.noConfusion hem

/-- **C8** (amended).  Stop-drain with join semantics: for every state
reachable from a scenario with `n` enqueued Asks in which `Stop()` is
(eventually) called: once `Stop()` has returned the loop has fully
exited and no further message can be dequeued for processing; all
executions are finite; and in any maximal state `Stop()` has returned
and every pending Ask caller has resolved — with a "stopped"-style
error, or (when the racing loop dequeues its message after `stopCh`
closes but before observing it) with the processor's reply/error or the
closed-channel nil artifact, but never blocking forever.  The claim's
stronger wording — that every pending Ask resolves with a stopped error —
fails in that race; see `C8_counterexample`. -/
theorem C8_stop_drain_join {V : Type} (procFn : Nat → Except String (Option V))
    (n : Nat) (cf : Bool) (s : ActorSt V)
    (hreach : AReach procFn (askInit V n cf true) s) :
    (s.stopPc = .returned → s.loopPc = .exited) ∧
    (s.stopPc = .returned → astep procFn s .loopProcess = none) ∧
    (∀ (tr : List AChoice) (s' : ActorSt V), arun procFn tr s = some s' →
      tr.length ≤ ameasure s) ∧
    (ATerminal procFn s →
      s.stopPc = .returned ∧
      ∀ (i : Nat) (c : CallerSt V), s.callers[i]? = some c →
        ∃ v em, c.pc = .done v em ∧ OutcomeOk procFn i v em) := by
  have inv := AInv_reach (AInv_init procFn n cf true) hreach
  have hen : s.stopEnabled = true := by
    obtain ⟨tr, htr⟩ := hreach
    rw [arun_stopEnabled tr _ s htr]
    rfl
  refine ⟨inv.joinOk, ?_, ?_, ?_⟩
  · intro hret
    have hexit := inv.joinOk hret
    simp [astep, hexit]
  · intro tr s' h
    have := arun_length_le procFn tr s s' h
    omega
  · intro hterm
    refine ⟨aterminal_stop_returned inv hterm hen, ?_⟩
    intro i c hc
    obtain ⟨v, em, hpc⟩ := aterminal_all_done inv hterm i c hc
    exact ⟨v, em, hpc, inv.doneOutcome i c hc v em hpc⟩

/-- Terminal state of the two-Ask stop-drain run in which the loop
observes the stop signal at once: both queued Asks are drained with the
"stopped before processing" error and both callers read it. -/
def c8FinalSt : ActorSt Nat :=
  { mailbox := [], mailboxClosed := true, stopClosed := true, stopEnabled := true,
    stopPc := .returned, loopPc := .exited,
    callers := [⟨.done none (some drainStopMsg), none, false, none, false, false, false⟩,
                ⟨.done none (some drainStopMsg), none, false, none, false, false, false⟩] }

/-- **C8** witness: the concrete two-Ask stop-drain scenario, run to its
terminal state; the theorem yields join semantics and both callers
resolved. -/
theorem C8_stop_drain_join_witness :
    c8FinalSt.loopPc = LoopPc.exited ∧
    (∃ c : CallerSt Nat, c8FinalSt.callers[0]? = some c ∧ ∃ v em, c.pc = CallerPc.done v em) ∧
    (∃ c : CallerSt Nat, c8FinalSt.callers[1]? = some c ∧ ∃ v em, c.pc = CallerPc.done v em) := by
  have hreach : AReach procSeven (askInit Nat 2 false true) c8FinalSt :=
    ⟨[.stopClose, .drainExit, .stopJoin, .recvErr 0, .recvErr 1], by decide⟩
  have h := C8_stop_drain_join procSeven 2 false c8FinalSt hreach
  have hterm : ATerminal procSeven c8FinalSt :=
    aterminal_of_list procSeven c8FinalSt (by decide)
  obtain ⟨hret, hall⟩ := h.2.2.2 hterm
  refine ⟨h.1 hret, ?_, ?_⟩
  · cases hc : c8FinalSt.callers[0]? with
    | none => exact absurd hc (by decide)
    | some c =>
      obtain ⟨v, em, hpc, _⟩ := hall 0 c hc
      exact ⟨c, rfl, v, em, hpc⟩
  · cases hc : c8FinalSt.callers[1]? with
    | none => exact absurd hc (by decide)
    | some c =>
      obtain ⟨v, em, hpc, _⟩ := hall 1 c hc
      exact ⟨c, rfl, v, em, hpc⟩

/-- The state immediately after `close(stopCh)` in the two-Ask scenario:
both Ask messages still queued and unprocessed. -/
def c8AfterStop : ActorSt Nat :=
  { mailbox := [0, 1], mailboxClosed := false, stopClosed := true, stopEnabled := true,
    stopPc := .waitingJoin, loopPc := .running,
    callers := List.replicate 2 (initCaller Nat false) }

/-- Terminal state of the race in which, after `Stop()` is called with
both Asks queued, the loop's main select takes the mailbox arm first:
caller 0's message is processed and its reply delivered and received,
while caller 1 is drained with the stop error. -/
def c8RaceSt : ActorSt Nat :=
  { mailbox := [], mailboxClosed := true, stopClosed := true, stopEnabled := true,
    stopPc := .returned, loopPc := .exited,
    callers := [⟨.done (some 7) none, none, true, none, true, false, false⟩,
                ⟨.done none (some drainStopMsg), none, false, none, false, false, false⟩] }

/-- **C8** counterexample: `Stop()` is invoked while both Asks are still
queued and unprocessed (`c8AfterStop`), yet in the continuation shown the
pending caller 0 resolves with the processor's reply `(some 7, nil)` — a
successful outcome, not a "stopped"-style error — contradicting the
claim that *every* pending Ask caller resolves with a stopped error. -/
theorem C8_counterexample :
    astep procSeven (askInit Nat 2 false true) AChoice.stopClose = some c8AfterStop ∧
    c8AfterStop.stopClosed = true ∧
    c8AfterStop.mailbox = [0, 1] ∧
    arun procSeven [.loopProcess, .deliverSend, .drainExit, .stopJoin,
      .recvReply 0, .recvErr 1] c8AfterStop = some c8RaceSt ∧
    (∃ c : CallerSt Nat, c8RaceSt.callers[0]? = some c ∧
      c.pc = CallerPc.done (some 7) none) ∧
    ¬ ((none : Option String) = some drainStopMsg ∨
       (none : Option String) = some askStopMsg) := by
  refine ⟨by decide, by decide, by decide, by decide, ?_, ?_⟩
  · exact ⟨⟨CallerPc.done (some 7) none, none, true, none, true, false, false⟩,
      by decide, rfl⟩
  · intro h
    rcases h with h | h <;> exact Option.noConfusion h

end PandaParty
